import Mathlib

/-!
Shallow embedding of the precision-bom agent service pipeline.

Primary sources:
  src/python-agent/src/bom_agent_service/flows/bom_flow.py
  src/python-agent/src/bom_agent_service/agents/final_decision.py
  src/python-agent/src/bom_agent_service/agents/engineering.py
  src/python-agent/src/bom_agent_service/models/final_report.py
  src/python-agent/src/bom_agent_service/models/specialist_result.py

Modules imported by the flow but absent from src (models/project.py,
models/enums.py, models/offers.py, models/market_intel.py, the stores
package and stores/offers_store.create_mock_offers) are modelled from the
specification, each with a doc comment saying so.

Modelling conventions:
  - Python float money values are modelled as Rat.
  - An uncaught Python exception is modelled as a poison flag
    (FlowSt.uncaught); once set, every later primitive and stage is a
    no-op, matching the fact that an exception propagating out of a flow
    method prevents all later listeners from running.
  - Wall-clock timing text, rich-console rendering, logging module calls
    and LLM prompt construction are elided: they feed only the opaque LLM
    call or the terminal, never project state.
  - uuid.uuid4() for the report id is modelled as a caller-supplied
    identifier (FlowEnv.reportId).
  - Python int(...) applied to a string is modelled by a decimal integer
    parser (optional sign, at least one digit), raising (Except.error)
    exactly when parsing fails.
-/

/-- Modelled from the spec: line-item status enum from the missing
models/enums.py. Spec section 3 lists the values
PENDING, ENRICHED, PENDING_FINAL_DECISION, PENDING_PURCHASE, FAILED. -/
inductive LineItemStatus where
  | pending
  | enriched
  | pendingFinalDecision
  | pendingPurchase
  | failed
deriving DecidableEq, Repr

/-- Modelled from the spec: decision status enum from the missing
models/enums.py; bom_flow.py uses DecisionStatus.APPROVED and
DecisionStatus.REJECTED. -/
inductive DecisionStatus where
  | approved
  | rejected
deriving DecidableEq, Repr

/-- Verdict literal type: final_report.py restricts the verdict field to
Literal APPROVED or REJECTED. -/
inductive VerdictKind where
  | approvedK
  | rejectedK
deriving DecidableEq, Repr

/-- Modelled from the spec: supplier offer record (stores/offers_store.py is
missing from src). Spec section 6: supplier id and name, unit price at a
given quantity, MOQ, stock quantity, lead time days, authorized flag. Only
its identity matters to the flow engine, which stores offers opaquely. -/
structure SupplierOffer where
  supplier_id : String := ""
  supplier_name : String := ""
  unit_price : Rat := 0
  moq : Int := 0
  stock_qty : Int := 0
  lead_time_days : Int := 0
  authorized : Bool := true
deriving DecidableEq, Repr

/-- Output data attached to a final AgentDecision; models the dict literal
built in bom_flow.py final_decision (lines 338 to 356). -/
structure AgentDecisionData where
  selected_supplier_id : Option String := none
  selected_supplier_name : Option String := none
  final_quantity : Int := 0
  final_unit_price : Rat := 0
  final_line_cost : Rat := 0
  engineering_findings : String := ""
  sourcing_findings : String := ""
  finance_findings : String := ""
  points_of_agreement : List String := []
  points_of_conflict : List String := []
  risk_factors : List String := []
  mitigations : List String := []
  conditions : List String := []
  executive_summary : String := ""
  total_approved_spend : Rat := 0
  budget_utilization_pct : Rat := 0
deriving DecidableEq, Repr

/-- Modelled from the spec: AgentDecision from the missing
models/project.py. bom_flow.py constructs it with agent_name, status,
reasoning, output_data and references. -/
structure AgentDecision where
  agent_name : String := ""
  status : DecisionStatus := .rejected
  reasoning : String := ""
  output_data : AgentDecisionData := {}
  references : List String := []
deriving DecidableEq, Repr

/-- Modelled from the spec: BOM line item from the missing
models/project.py. Field set taken from the constructor call in
bom_flow.py _parse_bom plus the mutable fields the stages assign
(status, final_decision, selected_mpn, selected_supplier). Spec section 3:
initial status is PENDING. -/
structure BOMLineItem where
  reference_designators : List String := []
  quantity : Int := 1
  mpn : String := ""
  manufacturer : String := ""
  description : String := ""
  package : String := ""
  value : String := ""
  status : LineItemStatus := .pending
  final_decision : Option AgentDecision := none
  selected_mpn : Option String := none
  selected_supplier : Option String := none
deriving DecidableEq, Repr

/-- Modelled from the spec: FlowTraceStep from the missing
models/project.py. bom_flow.py _log_step constructs it with step, agent,
message, reasoning and references. -/
structure FlowTraceStep where
  step : String := ""
  agent : Option String := none
  message : String := ""
  reasoning : Option String := none
  references : List String := []
deriving DecidableEq, Repr

/-- Modelled from the spec: project context from the missing
models/project.py, restricted to the fields the embedded code reads
(project id and name, budget). Remaining intake-context sections only
parameterize LLM prompt text and are elided. -/
structure ProjectContext where
  project_id : String := ""
  project_name : String := ""
  budget_total : Rat := 0
deriving DecidableEq, Repr

/-- Modelled from the spec: Project from the missing models/project.py.
Spec section 3: unique id, mutable status string, ordered line items,
ordered trace, immutable intake context. -/
structure Project where
  project_id : String := ""
  status : String := "intake"
  context : ProjectContext := {}
  line_items : List BOMLineItem := []
  trace : List FlowTraceStep := []
deriving DecidableEq, Repr

/-- SpecialistAgentResult from models/specialist_result.py (datetime
timestamp elided). -/
structure SpecialistAgentResult where
  agent_name : String := ""
  parts_evaluated : List String := []
  analysis_notes : String := ""
  key_concerns : List String := []
  recommendations : List String := []
  raw_response : String := ""
deriving DecidableEq, Repr

/-- Modelled from the spec: MarketIntelReport from the missing
models/market_intel.py, restricted to the fields gather_market_intel
reads: items, total_sources_scraped, supply_chain_risks, shortage_alerts. -/
structure MarketIntelReport where
  items : List String := []
  total_sources_scraped : Nat := 0
  supply_chain_risks : List String := []
  shortage_alerts : List String := []
deriving DecidableEq, Repr

/-- PartVerdict from models/final_report.py (judicial verdict for one
part). -/
structure PartVerdict where
  mpn : String := ""
  verdict : VerdictKind := .rejectedK
  selected_supplier_id : Option String := none
  selected_supplier_name : Option String := none
  final_quantity : Int := 0
  final_unit_price : Rat := 0
  final_line_cost : Rat := 0
  engineering_findings : String := ""
  sourcing_findings : String := ""
  finance_findings : String := ""
  points_of_agreement : List String := []
  points_of_conflict : List String := []
  resolution_rationale : String := ""
  risk_factors : List String := []
  mitigations : List String := []
  conditions : List String := []
deriving DecidableEq, Repr

/-- ProjectSummary from models/final_report.py. -/
structure ProjectSummary where
  total_parts : Nat := 0
  approved_count : Nat := 0
  rejected_count : Nat := 0
  total_estimated_spend : Rat := 0
  budget_remaining : Rat := 0
  overall_risk_level : String := "LOW"
  key_risks : List String := []
  strategic_recommendations : List String := []
deriving DecidableEq, Repr

/-- FollowUpItem from models/final_report.py. -/
structure FollowUpItem where
  priority : String := "LOW"
  category : String := ""
  description : String := ""
  related_mpns : List String := []
  suggested_owner : Option String := none
deriving DecidableEq, Repr

/-- FinalDecisionReport from models/final_report.py (generated_at datetime
elided). -/
structure FinalDecisionReport where
  report_id : String := ""
  project_id : String := ""
  executive_summary : String := ""
  verdicts : List PartVerdict := []
  project_summary : ProjectSummary := {}
  follow_up_notes : List FollowUpItem := []
  total_approved : Nat := 0
  total_rejected : Nat := 0
  total_spend : Rat := 0
  budget_utilization_pct : Rat := 0
deriving DecidableEq, Repr

/-- LLMPartVerdict from agents/final_decision.py: the structured LLM output
for a single part. -/
structure LLMPartVerdict where
  mpn : String := ""
  verdict : VerdictKind := .rejectedK
  selected_supplier_id : Option String := none
  selected_supplier_name : Option String := none
  final_quantity : Int := 0
  final_unit_price : Rat := 0
  final_line_cost : Rat := 0
  engineering_findings : String := ""
  sourcing_findings : String := ""
  finance_findings : String := ""
  points_of_agreement : List String := []
  points_of_conflict : List String := []
  resolution_rationale : String := ""
  risk_factors : List String := []
  mitigations : List String := []
  conditions : List String := []
deriving DecidableEq, Repr

/-- LLMProjectSummary from agents/final_decision.py. -/
structure LLMProjectSummary where
  overall_risk_level : String := "LOW"
  key_risks : List String := []
  strategic_recommendations : List String := []
deriving DecidableEq, Repr

/-- LLMFollowUpItem from agents/final_decision.py. -/
structure LLMFollowUpItem where
  priority : String := "LOW"
  category : String := ""
  description : String := ""
  related_mpns : List String := []
deriving DecidableEq, Repr

/-- LLMFinalDecisionOutput from agents/final_decision.py: complete
structured LLM output for the final decision. -/
structure LLMFinalDecisionOutput where
  executive_summary : String := ""
  verdicts : List LLMPartVerdict := []
  project_summary : LLMProjectSummary := {}
  follow_up_notes : List LLMFollowUpItem := []
deriving DecidableEq, Repr

/-- Offer store contents: per-MPN supplier offers. Modelled from the spec:
stores/offers_store.py is missing from src; spec section 6 gives
getOffers and setOffers keyed by MPN, with setOffers overwriting. -/
def OffersMap : Type := String → Option (List SupplierOffer)

/-- Environment of one flow run: the injected collaborators of
BOMProcessingFlow.__init__ plus the outcomes of the external effects the
stages perform (file reads, LLM calls, uuid generation). Each evaluator or
synthesizer call is modelled as a function returning Except, where
Except.error e stands for the call raising an exception with message e. -/
structure FlowEnv where
  bomPath : String := "bom.csv"
  intakePath : String := ""
  /-- Outcome of opening and reading the BOM CSV into DictReader rows;
  each row is an association list from column name to cell text. -/
  bomFile : Except String (List (List (String × String))) := .ok []
  /-- Outcome of the expression
  self.parse_intake(...) if self.state.intake_path else ProjectContext()
  in intake (YAML reading and parsing is external to the claims). -/
  intakeCtxResult : Except String ProjectContext := .ok {}
  /-- Project id assigned by ProjectStore.create_project. -/
  projectId : String := "proj-1"
  /-- Report id from uuid.uuid4() in make_final_decisions. -/
  reportId : String := "report-1"
  /-- Modelled from the spec: create_mock_offers from the missing
  stores/offers_store.py, a pure function of mpn, manufacturer and
  description. -/
  createMockOffers : String → String → String → List SupplierOffer := fun _ _ _ => []
  /-- Optional market intel agent; the function models gather_intel applied
  to the line items and the context. -/
  marketIntelAgent : Option (List BOMLineItem → ProjectContext → Except String MarketIntelReport) := none
  /-- EngineeringAgent.evaluate_batch as seen by the flow. -/
  evalEng : List BOMLineItem → ProjectContext → OffersMap → Except String SpecialistAgentResult :=
    fun _ _ _ => .ok {}
  /-- SourcingAgent.evaluate_batch (also receives the market intel report). -/
  evalSrc : List BOMLineItem → ProjectContext → OffersMap → Option MarketIntelReport → Except String SpecialistAgentResult :=
    fun _ _ _ _ => .ok {}
  /-- FinanceAgent.evaluate_batch. -/
  evalFin : List BOMLineItem → ProjectContext → OffersMap → Except String SpecialistAgentResult :=
    fun _ _ _ => .ok {}
  /-- The LLM part of FinalDecisionAgent.make_final_decisions: the
  crew.kickoff_async call together with the result.pydantic check, which
  raises when no structured output is returned. -/
  synthesizeLLM : List BOMLineItem → ProjectContext → SpecialistAgentResult → SpecialistAgentResult → SpecialistAgentResult → Except String LLMFinalDecisionOutput :=
    fun _ _ _ _ _ => .ok {}
  /-- The optional on_step trace consumer callback; Except.error models the
  callback raising. -/
  onStep : Option (FlowTraceStep → Except String Unit) := none

/-- Mutable state of one flow run: BOMFlowState (bom_flow.py lines 37 to
43) plus the instance attributes of BOMProcessingFlow that the stages
mutate, plus the single-project view of the Project Store. The produced
and callbackLog fields instrument trace-step production and callback
invocation for the audit claims; uncaught models an exception propagating
out of a stage, which prevents every later stage from running. -/
structure FlowSt where
  /-- BOMFlowState.error. -/
  flowError : Option String := none
  /-- BOMFlowState.project_id. -/
  projectId : String := ""
  /-- self.project, the transient in-memory working copy. -/
  project : Option Project := none
  /-- Modelled from the spec: contents of the Project Store for this run.
  The store is durable (SQLite backed), so get returns a value copy and
  update is a full-state upsert. -/
  store : Option Project := none
  /-- self.offers_store contents. -/
  offers : OffersMap := fun _ => none
  /-- self.market_intel_report. -/
  marketIntelReport : Option MarketIntelReport := none
  /-- self.engineering_result. -/
  engineeringResult : Option SpecialistAgentResult := none
  /-- self.sourcing_result. -/
  sourcingResult : Option SpecialistAgentResult := none
  /-- self.finance_result. -/
  financeResult : Option SpecialistAgentResult := none
  /-- self.final_report. -/
  finalReport : Option FinalDecisionReport := none
  /-- Instrumentation: every FlowTraceStep constructed by log_step, in
  order. -/
  produced : List FlowTraceStep := []
  /-- Instrumentation: every step the on_step callback was invoked with,
  in order (appended whether or not the callback raises, since the
  invocation itself has happened). -/
  callbackLog : List FlowTraceStep := []
  /-- An exception that escaped a stage; once set the run is aborted. -/
  uncaught : Option String := none

/-- The log_step helper (bom_flow.py lines 84 to 100): build the trace
step, append it to the project trace and persist when a project exists,
then invoke the callback when configured. Rich console rendering is
elided. A poisoned state is returned unchanged because no code after an
uncaught exception runs. -/
def logStep (env : FlowEnv) (stepName : String) (message : String)
    (agent : Option String) (reasoning : Option String)
    (references : List String) (s : FlowSt) : FlowSt :=
  if s.uncaught.isSome then s else
  let ts : FlowTraceStep :=
    { step := stepName, agent := agent, message := message
      reasoning := reasoning, references := references }
  let s1 :=
    match s.project with
    | some p =>
      let p2 := { p with trace := p.trace ++ [ts] }
      { s with project := some p2, store := some p2, produced := s.produced ++ [ts] }
    | none => { s with produced := s.produced ++ [ts] }
  match env.onStep with
  | none => s1
  | some f =>
    let s2 := { s1 with callbackLog := s1.callbackLog ++ [ts] }
    match f ts with
    | .ok _ => s2
    | .error e => { s2 with uncaught := some e }

/-- Apply an in-memory mutation to self.project when it exists (no
persistence). -/
def withProject (s : FlowSt) (f : Project → Project) : FlowSt :=
  match s.project with
  | some p => { s with project := some (f p) }
  | none => s

/-- project_store.update_project(self.project): full-state upsert of the
in-memory project. -/
def persistProject (s : FlowSt) : FlowSt :=
  match s.project with
  | some p => { s with store := some p }
  | none => s

/-- Dictionary row.get on a DictReader row: the cell text when the column
is present, none otherwise. -/
def rowGet (row : List (String × String)) (key : String) : Option String :=
  (row.find? (fun kv => kv.1 == key)).map (fun kv => kv.2)

/-- Digit accumulation for the decimal integer parser. -/
def digitsValAux : List Char → Nat → Option Nat
  | [], acc => some acc
  | c :: rest, acc =>
    if c.isDigit then digitsValAux rest (acc * 10 + (c.toNat - 48)) else none

/-- Decimal digits to a natural number; none on empty input or any
non-digit character. -/
def parseDigits : List Char → Option Nat
  | [] => none
  | cs => digitsValAux cs 0

/-- Value accepted by Python int(...) on a string: an optional sign
followed by at least one decimal digit (whitespace and underscore forms
are not exercised by the claims); none models a ValueError. -/
def pyIntVal (qs : String) : Option Int :=
  match qs.data with
  | '-' :: rest => (parseDigits rest).map (fun n => -(n : Int))
  | '+' :: rest => (parseDigits rest).map (fun n => (n : Int))
  | _ => (parseDigits qs.data).map (fun n => (n : Int))

/-- Python int(...) applied to a string: an integer on success, a raised
ValueError modelled as Except.error when the text is not an integer
literal. -/
def pyInt (qs : String) : Except String Int :=
  match pyIntVal qs with
  | some n => .ok n
  | none => .error ("invalid literal for int(): " ++ qs)

/-- One iteration of the parse_bom row loop (bom_flow.py lines 417 to
427): defensive defaults via row.get for every field, except that a
present but malformed quantity cell makes int() raise. -/
def parseRow (row : List (String × String)) : Except String BOMLineItem :=
  let refDes := (rowGet row "Reference Designators").getD
    ((rowGet row "Ref Des").getD ((rowGet row "Part Number").getD ""))
  let qtyResult : Except String Int :=
    match rowGet row "Quantity" with
    | some qs => pyInt qs
    | none =>
      match rowGet row "Qty" with
      | some qs => pyInt qs
      | none => .ok 1
  match qtyResult with
  | .error e => .error e
  | .ok qty =>
    .ok { reference_designators := if refDes = "" then [] else [refDes]
          quantity := qty
          mpn := (rowGet row "MPN").getD ((rowGet row "Part Number").getD "")
          manufacturer := (rowGet row "Manufacturer").getD ""
          description := (rowGet row "Description").getD ""
          package := (rowGet row "Package").getD ""
          value := (rowGet row "Value").getD ""
          status := .pending, final_decision := none
          selected_mpn := none, selected_supplier := none }

/-- parse_bom over all rows: the loop aborts at the first raising row. -/
def parseBom (rows : List (List (String × String))) : Except String (List BOMLineItem) :=
  rows.mapM parseRow

/-- The except handler of intake (bom_flow.py lines 123 to 126): record
the error on the flow state, then log it; the handler log call itself can
raise through the callback. -/
def intakeErrorHandler (env : FlowEnv) (e : String) (s : FlowSt) : FlowSt :=
  let s1 := { s with flowError := some e }
  logStep env "intake" ("ERROR: " ++ e) none none [] s1

/-- The intake stage (bom_flow.py lines 102 to 126). The first log call is
outside the try block; context parsing, BOM parsing, project creation and
the success log are inside it, so an exception from any of them (including
the callback raising during the success log) is converted into
state.error. -/
def intake (env : FlowEnv) (s : FlowSt) : FlowSt :=
  if s.uncaught.isSome then s else
  let s1 := logStep env "intake" ("Starting intake from " ++ env.bomPath) none none [] s
  if s1.uncaught.isSome then s1 else
  match env.intakeCtxResult with
  | .error e => intakeErrorHandler env e s1
  | .ok ctx =>
    match env.bomFile.bind parseBom with
    | .error e => intakeErrorHandler env e s1
    | .ok items =>
      let p : Project :=
        { project_id := env.projectId, status := "intake", context := ctx
          line_items := items, trace := [] }
      let s2 := { s1 with project := some p, store := some p
                          projectId := env.projectId, offers := fun _ => none }
      let s3 := logStep env "intake"
        ("Created project " ++ env.projectId ++ " with "
          ++ toString items.length ++ " line items") none none [] s2
      match s3.uncaught with
      | none => s3
      | some e => intakeErrorHandler env e { s3 with uncaught := none }

/-- One offer-store write: set_offers overwrites the entry for the MPN.
Modelled from the spec (stores/offers_store.py missing): re-enriching
overwrites, not appends. -/
def setOffers (m : OffersMap) (mpn : String) (offers : List SupplierOffer) : OffersMap :=
  fun k => if k = mpn then some offers else m k

/-- The offer writes of the enrich loop. -/
def enrichOffers (env : FlowEnv) (items : List BOMLineItem) (m : OffersMap) : OffersMap :=
  items.foldl
    (fun acc it => setOffers acc it.mpn (env.createMockOffers it.mpn it.manufacturer it.description)) m

/-- The enrich stage (bom_flow.py lines 128 to 149): short-circuit on
state.error, fetch the project, mark it enriching, write mock offers for
every line item and set every item status to ENRICHED, persist, log. -/
def enrich (env : FlowEnv) (s : FlowSt) : FlowSt :=
  if s.uncaught.isSome then s else
  if s.flowError.isSome then s else
  let s1 := logStep env "enrich" "Starting enrichment" none none [] s
  if s1.uncaught.isSome then s1 else
  match s1.store with
  | none => { s1 with uncaught := some "KeyError: project not found" }
  | some p0 =>
    let s2 := { s1 with project := some { p0 with status := "enriching" } }
    let s3 := { s2 with offers := enrichOffers env p0.line_items s2.offers }
    let s4 := withProject s3
      (fun p => { p with line_items := p.line_items.map (fun it => { it with status := LineItemStatus.enriched }) })
    let s5 := persistProject s4
    logStep env "enrich"
      ("Enriched " ++ toString p0.line_items.length ++ "/"
        ++ toString p0.line_items.length ++ " items with supplier data") none none [] s5

/-- Truncation used when logging specialist analyses: the first 500
characters followed by an ellipsis when longer. -/
def truncate500 (t : String) : String :=
  if t.length > 500 then t.take 500 ++ "..." else t

/-- Bullet list join used in the market intel reasoning text. -/
def bulletJoin (xs : List String) : String :=
  String.intercalate "\n" (xs.map (fun r => "- " ++ r))

/-- The gather_market_intel stage (bom_flow.py lines 151 to 205):
best-effort; a raising provider is caught and recorded as a trace message
only, and state.error is never written in this stage. -/
def gatherMarketIntel (env : FlowEnv) (s : FlowSt) : FlowSt :=
  if s.uncaught.isSome then s else
  if s.flowError.isSome then s else
  match env.marketIntelAgent with
  | none => logStep env "market_intel" "Market intelligence agent not configured - skipping" none none [] s
  | some agent =>
    let s1 := logStep env "market_intel" "Starting market intelligence gathering via Apify" none none [] s
    if s1.uncaught.isSome then s1 else
    match s1.store with
    | none => { s1 with uncaught := some "KeyError: project not found" }
    | some p =>
      let s2 := { s1 with project := some p }
      match agent p.line_items p.context with
      | .error e =>
        logStep env "market_intel" ("Market intel gathering failed: " ++ e)
          (some "MarketIntelAgent") none [] s2
      | .ok r =>
        let s3 := { s2 with marketIntelReport := some r }
        if r.items.isEmpty then
          logStep env "market_intel" "No market intelligence gathered (Apify may not be configured)"
            (some "MarketIntelAgent") none [] s3
        else
          let s4 := logStep env "market_intel"
            ("Gathered " ++ toString r.items.length ++ " intel items from "
              ++ toString r.total_sources_scraped ++ " sources")
            (some "MarketIntelAgent") none [] s3
          let s5 :=
            if r.supply_chain_risks.isEmpty then s4 else
            logStep env "market_intel"
              ("Supply chain risks identified: " ++ toString r.supply_chain_risks.length)
              (some "MarketIntelAgent") (some (bulletJoin (r.supply_chain_risks.take 5))) [] s4
          if r.shortage_alerts.isEmpty then s5 else
          logStep env "market_intel"
            ("Shortage alerts: " ++ toString r.shortage_alerts.length)
            (some "MarketIntelAgent") (some (bulletJoin (r.shortage_alerts.take 5))) [] s5

/-- Items selected for specialist review: every line item whose status is
ENRICHED. -/
def reviewFilter (items : List BOMLineItem) : List BOMLineItem :=
  items.filter (fun it => decide (it.status = LineItemStatus.enriched))

/-- The per-item transition of parallel_agent_review (bom_flow.py lines
279 to 280): every evaluated (ENRICHED) item moves to
PENDING_FINAL_DECISION; other items are untouched. -/
def promoteEnriched (it : BOMLineItem) : BOMLineItem :=
  if it.status = LineItemStatus.enriched
  then { it with status := LineItemStatus.pendingFinalDecision } else it

/-- The parallel_agent_review stage (bom_flow.py lines 207 to 289). The
three evaluate_batch calls run under asyncio.gather with no surrounding
try, so the first raising evaluator propagates out of the stage
uncaught (determinized here to engineering, then sourcing, then finance);
items transition to PENDING_FINAL_DECISION only after all three calls
returned. -/
def parallelReview (env : FlowEnv) (s : FlowSt) : FlowSt :=
  if s.uncaught.isSome then s else
  if s.flowError.isSome then s else
  let s1 := logStep env "parallel_review" "Starting parallel agent review (Engineering, Sourcing, Finance)" none none [] s
  if s1.uncaught.isSome then s1 else
  match s1.store with
  | none => { s1 with uncaught := some "KeyError: project not found" }
  | some p0 =>
    let p1 := { p0 with status := "agent_review" }
    let s2 := { s1 with project := some p1 }
    let itemsToEvaluate := reviewFilter p1.line_items
    if itemsToEvaluate.isEmpty then
      logStep env "parallel_review" "No items to evaluate" none none [] s2
    else
      match env.evalEng itemsToEvaluate p1.context s2.offers,
            env.evalSrc itemsToEvaluate p1.context s2.offers s2.marketIntelReport,
            env.evalFin itemsToEvaluate p1.context s2.offers with
      | .ok engR, .ok srcR, .ok finR =>
        let s3 := { s2 with engineeringResult := some engR
                            sourcingResult := some srcR
                            financeResult := some finR }
        let s4 := logStep env "parallel_review" "Parallel LLM calls completed" none none [] s3
        let s5 := logStep env "engineering"
          ("Engineering analysis complete for " ++ toString engR.parts_evaluated.length ++ " parts")
          (some "EngineeringAgent") (some (truncate500 engR.analysis_notes)) [] s4
        let s6 := logStep env "sourcing"
          ("Sourcing analysis complete for " ++ toString srcR.parts_evaluated.length ++ " parts")
          (some "SourcingAgent") (some (truncate500 srcR.analysis_notes)) [] s5
        let s7 := logStep env "finance"
          ("Finance analysis complete for " ++ toString finR.parts_evaluated.length ++ " parts")
          (some "FinanceAgent") (some (truncate500 finR.analysis_notes)) [] s6
        if s7.uncaught.isSome then s7 else
        let s8 := withProject s7
          (fun p => { p with line_items := p.line_items.map promoteEnriched })
        let s9 := persistProject s8
        logStep env "parallel_review"
          ("Parallel review complete: All specialist analyses collected for "
            ++ toString itemsToEvaluate.length ++ " parts") none none [] s9
      | .error e, _, _ => { s2 with uncaught := some e }
      | _, .error e, _ => { s2 with uncaught := some e }
      | _, _, .error e => { s2 with uncaught := some e }

/-- The zero-item report of make_final_decisions (final_decision.py lines
113 to 134). -/
def emptyFinalReport (reportId : String) (ctx : ProjectContext) : FinalDecisionReport :=
  { report_id := reportId, project_id := ctx.project_id
    executive_summary := "No parts to evaluate."
    verdicts := []
    project_summary :=
      { total_parts := 0, approved_count := 0, rejected_count := 0
        total_estimated_spend := 0, budget_remaining := ctx.budget_total
        overall_risk_level := "LOW", key_risks := [], strategic_recommendations := [] }
    follow_up_notes := [], total_approved := 0, total_rejected := 0
    total_spend := 0, budget_utilization_pct := 0 }

/-- Conversion of one LLM verdict into a PartVerdict (final_decision.py
lines 253 to 270): a field-by-field copy. -/
def convertVerdict (lv : LLMPartVerdict) : PartVerdict :=
  { mpn := lv.mpn, verdict := lv.verdict
    selected_supplier_id := lv.selected_supplier_id
    selected_supplier_name := lv.selected_supplier_name
    final_quantity := lv.final_quantity
    final_unit_price := lv.final_unit_price
    final_line_cost := lv.final_line_cost
    engineering_findings := lv.engineering_findings
    sourcing_findings := lv.sourcing_findings
    finance_findings := lv.finance_findings
    points_of_agreement := lv.points_of_agreement
    points_of_conflict := lv.points_of_conflict
    resolution_rationale := lv.resolution_rationale
    risk_factors := lv.risk_factors
    mitigations := lv.mitigations
    conditions := lv.conditions }

/-- Report assembly of make_final_decisions (final_decision.py lines 249
to 312): convert verdicts, accumulate approved spend, count approvals and
rejections, build the project summary and the guarded budget
utilization. -/
def buildFinalReport (reportId : String) (items : List BOMLineItem) (ctx : ProjectContext)
    (out : LLMFinalDecisionOutput) : FinalDecisionReport :=
  let verdicts := out.verdicts.map convertVerdict
  let totalSpend := verdicts.foldl
    (fun acc v => if v.verdict = VerdictKind.approvedK then acc + v.final_line_cost else acc) 0
  let totalApproved := verdicts.countP (fun v => decide (v.verdict = VerdictKind.approvedK))
  let totalRejected := verdicts.countP (fun v => decide (v.verdict = VerdictKind.rejectedK))
  let followUp : List FollowUpItem := out.follow_up_notes.map
    (fun i => { priority := i.priority, category := i.category
                description := i.description, related_mpns := i.related_mpns
                suggested_owner := none })
  let summary : ProjectSummary :=
    { total_parts := items.length, approved_count := totalApproved
      rejected_count := totalRejected, total_estimated_spend := totalSpend
      budget_remaining := ctx.budget_total - totalSpend
      overall_risk_level := out.project_summary.overall_risk_level
      key_risks := out.project_summary.key_risks
      strategic_recommendations := out.project_summary.strategic_recommendations }
  let budgetUtilization : Rat :=
    if ctx.budget_total > 0 then totalSpend / ctx.budget_total * 100 else 0
  { report_id := reportId, project_id := ctx.project_id
    executive_summary := out.executive_summary
    verdicts := verdicts, project_summary := summary
    follow_up_notes := followUp
    total_approved := totalApproved, total_rejected := totalRejected
    total_spend := totalSpend, budget_utilization_pct := budgetUtilization }

/-- FinalDecisionAgent.make_final_decisions (final_decision.py lines 93 to
317): empty input short-circuits to a zero report before any LLM call;
otherwise the structured LLM outcome (llm) is converted, and a raising or
structureless LLM propagates as an error. The specialist results feed only
the prompt text. -/
def makeFinalDecisions (reportId : String) (items : List BOMLineItem) (ctx : ProjectContext)
    (_engineeringResult _sourcingResult _financeResult : SpecialistAgentResult)
    (llm : Except String LLMFinalDecisionOutput) : Except String FinalDecisionReport :=
  if items.isEmpty then .ok (emptyFinalReport reportId ctx)
  else
    match llm with
    | .error e => .error e
    | .ok out => .ok (buildFinalReport reportId items ctx out)

/-- Items pending final decision. -/
def pfdFilter (items : List BOMLineItem) : List BOMLineItem :=
  items.filter (fun it => decide (it.status = LineItemStatus.pendingFinalDecision))

/-- The verdict_map lookup of bom_flow.py line 328: a dict comprehension
keyed by MPN, so a duplicate MPN keeps the last verdict. -/
def verdictLookup (vs : List PartVerdict) (mpn : String) : Option PartVerdict :=
  vs.reverse.find? (fun v => v.mpn == mpn)

/-- Log message for one applied verdict (decimal money formatting
elided). -/
def verdictMessage (it : BOMLineItem) (v : PartVerdict) : String :=
  it.mpn ++ ": "
    ++ (match v.verdict with | .approvedK => "APPROVED" | .rejectedK => "REJECTED")
    ++ " - Supplier: " ++ (v.selected_supplier_name.getD "N/A")
    ++ ", Qty: " ++ toString v.final_quantity
    ++ ", Cost: $" ++ toString v.final_line_cost

/-- Application of one verdict to its line item (bom_flow.py lines 333 to
365): record the AgentDecision, then transition to PENDING_PURCHASE with
the supplier selection when approved, or to FAILED when rejected. -/
def applyVerdict (report : FinalDecisionReport) (v : PartVerdict) (it : BOMLineItem) : BOMLineItem :=
  let decision : AgentDecision :=
    { agent_name := "FinalDecisionAgent"
      status := match v.verdict with | .approvedK => .approved | .rejectedK => .rejected
      reasoning := v.resolution_rationale
      output_data :=
        { selected_supplier_id := v.selected_supplier_id
          selected_supplier_name := v.selected_supplier_name
          final_quantity := v.final_quantity
          final_unit_price := v.final_unit_price
          final_line_cost := v.final_line_cost
          engineering_findings := v.engineering_findings
          sourcing_findings := v.sourcing_findings
          finance_findings := v.finance_findings
          points_of_agreement := v.points_of_agreement
          points_of_conflict := v.points_of_conflict
          risk_factors := v.risk_factors
          mitigations := v.mitigations
          conditions := v.conditions
          executive_summary := report.executive_summary
          total_approved_spend := report.total_spend
          budget_utilization_pct := report.budget_utilization_pct }
      references := [] }
  let it1 := { it with final_decision := some decision }
  match v.verdict with
  | .approvedK =>
    { it1 with selected_mpn := some it.mpn
               selected_supplier := v.selected_supplier_id
               status := LineItemStatus.pendingPurchase }
  | .rejectedK => { it1 with status := LineItemStatus.failed }

/-- The verdict mapping loop of final_decision (bom_flow.py lines 330 to
376). The Python loop walks items_to_decide, which are aliases of the
project line items; here the full item list is walked, acting exactly on
the items whose status is PENDING_FINAL_DECISION (the same set, in the
same order). An item with no verdict in the map is skipped silently; an
item with a verdict is mutated in place and its verdict logged, and the
per-item log call persists the partially updated project through the
trace write. -/
def decideLoop (env : FlowEnv) (report : FinalDecisionReport)
    (pre rest : List BOMLineItem) (s : FlowSt) : FlowSt :=
  match rest with
  | [] => s
  | it :: rest2 =>
    if s.uncaught.isSome then s
    else if it.status = LineItemStatus.pendingFinalDecision then
      match verdictLookup report.verdicts it.mpn with
      | none => decideLoop env report (pre ++ [it]) rest2 s
      | some v =>
        let it2 := applyVerdict report v it
        let s1 := withProject s (fun p => { p with line_items := pre ++ it2 :: rest2 })
        let s2 := logStep env "final_decision" (verdictMessage it v)
          (some "FinalDecisionAgent") (some v.resolution_rationale) [] s1
        decideLoop env report (pre ++ [it2]) rest2 s2
    else decideLoop env report (pre ++ [it]) rest2 s

/-- The final_decision stage (bom_flow.py lines 291 to 387): short-circuit
on state.error, select pending items (returning early when none, leaving
self.final_report unset), synthesize, then map verdicts onto items. A
raising synthesizer propagates uncaught; a missing verdict is silently
skipped. Passing a missing specialist result would raise inside prompt
construction (modelled as an AttributeError). -/
def finalDecision (env : FlowEnv) (s : FlowSt) : FlowSt :=
  if s.uncaught.isSome then s else
  if s.flowError.isSome then s else
  let s1 := logStep env "final_decision" "Starting final decision synthesis" none none [] s
  if s1.uncaught.isSome then s1 else
  match s1.store with
  | none => { s1 with uncaught := some "KeyError: project not found" }
  | some p0 =>
    let p1 := { p0 with status := "final_decision" }
    let s2 := { s1 with project := some p1 }
    let itemsToDecide := pfdFilter p1.line_items
    if itemsToDecide.isEmpty then
      logStep env "final_decision" "No items pending final decision" none none [] s2
    else
      match s2.engineeringResult, s2.sourcingResult, s2.financeResult with
      | some engR, some srcR, some finR =>
        (match makeFinalDecisions env.reportId itemsToDecide p1.context engR srcR finR
            (env.synthesizeLLM itemsToDecide p1.context engR srcR finR) with
        | .error e => { s2 with uncaught := some e }
        | .ok report =>
          let s3 := { s2 with finalReport := some report }
          let s4 := logStep env "final_decision" "Final decision LLM call completed" none none [] s3
          let s5 := decideLoop env report [] p1.line_items s4
          if s5.uncaught.isSome then s5 else
          let s6 := persistProject s5
          logStep env "final_decision"
            ("Final decisions complete: " ++ toString report.total_approved ++ "/"
              ++ toString itemsToDecide.length ++ " approved") none none [] s6)
      | _, _, _ => { s2 with uncaught := some "AttributeError: specialist result is None" }

/-- The complete stage (bom_flow.py lines 389 to 410): short-circuit on
state.error, mark the project complete, persist, log (console summary
elided). -/
def complete (env : FlowEnv) (s : FlowSt) : FlowSt :=
  if s.uncaught.isSome then s else
  if s.flowError.isSome then s else
  match s.store with
  | none => { s with uncaught := some "KeyError: project not found" }
  | some p0 =>
    let p1 := { p0 with status := "complete" }
    let s1 := { s with project := some p1, store := some p1 }
    logStep env "complete" ("Project " ++ p1.project_id ++ " processing complete") none none [] s1

/-- Initial flow state: a fresh BOMFlowState and an empty store. -/
def initSt : FlowSt := {}

/-- One whole pipeline run: the crewai listener chain
intake, enrich, gather_market_intel, parallel_agent_review,
final_decision, complete, where an uncaught exception stops the chain
(modelled by the poison flag each stage checks first). -/
def runFlow (env : FlowEnv) : FlowSt :=
  complete env (finalDecision env (parallelReview env (gatherMarketIntel env (enrich env (intake env initSt)))))

/-- Modelled from the spec: part usage knowledge from the missing
models/knowledge.py (getPartKnowledge returns timesUsed and
failureCount). -/
structure PartKnowledge where
  times_used : Nat := 0
  failure_count : Nat := 0
deriving DecidableEq, Repr

/-- Modelled from the spec: the Org Knowledge Store interface from the
missing stores/org_knowledge.py. Spec section 6: isPartBanned returns a
flag and a reason, getApprovedAlternates a list of MPNs, getPartKnowledge
optional usage counts. -/
structure OrgKnowledgeStore where
  isPartBanned : String → Bool × String := fun _ => (false, "")
  getApprovedAlternates : String → List String := fun _ => []
  getPart : String → Option PartKnowledge := fun _ => none

/-- The deterministic concern accumulation of
EngineeringAgent.evaluate_batch (engineering.py lines 59 to 81): one
key_concerns entry per banned item, in item order, carrying the MPN and
the ban reason. -/
def engineeringKeyConcerns (org : OrgKnowledgeStore) (items : List BOMLineItem) : List String :=
  items.filterMap (fun it =>
    let br := org.isPartBanned it.mpn
    if br.1 then some (it.mpn ++ ": BANNED - " ++ br.2) else none)

/-- EngineeringAgent.evaluate_batch (engineering.py lines 40 to 166):
empty input returns an empty result without an LLM call; otherwise
key_concerns is computed from the knowledge store before the LLM call and
is independent of its output, whose raw prose becomes analysis_notes and
raw_response. Prompt construction, and the offer, alternate and usage
lookups that feed only the prompt and the logger, are elided; llm models
crew.kickoff_async, with Except.error for a raising call. -/
def engineeringEvaluateBatch (org : OrgKnowledgeStore)
    (items : List BOMLineItem) (llm : Except String String) : Except String SpecialistAgentResult :=
  if items.isEmpty then
    .ok { agent_name := "EngineeringAgent", parts_evaluated := []
          analysis_notes := "No parts to evaluate.", raw_response := "" }
  else
    match llm with
    | .error e => .error e
    | .ok raw =>
      .ok { agent_name := "EngineeringAgent"
            parts_evaluated := items.map (fun it => it.mpn)
            analysis_notes := raw
            key_concerns := engineeringKeyConcerns org items
            recommendations := []
            raw_response := raw }

/-- Status of the durably stored project. -/
def storeStatus (s : FlowSt) : Option String := s.store.map (fun p => p.status)

/-- Statuses of the stored line items, in order. -/
def statusesOf (s : FlowSt) : Option (List LineItemStatus) :=
  s.store.map (fun p => p.line_items.map (fun it => it.status))

/-- Reachability along the forward status path
PENDING to ENRICHED to PENDING_FINAL_DECISION to
(PENDING_PURCHASE or FAILED), reflexively. -/
def statusLe : LineItemStatus → LineItemStatus → Bool
  | .pending, _ => true
  | .enriched, .pending => false
  | .enriched, _ => true
  | .pendingFinalDecision, .pending => false
  | .pendingFinalDecision, .enriched => false
  | .pendingFinalDecision, _ => true
  | .pendingPurchase, .pendingPurchase => true
  | .pendingPurchase, _ => false
  | .failed, .failed => true
  | .failed, _ => false

/-- Forward evolution of the stored item statuses between two pipeline
observation points: once a project exists it is never deleted, its item
list keeps its length, and each item status only moves forward. -/
def forwardStep : Option (List LineItemStatus) → Option (List LineItemStatus) → Prop
  | none, _ => True
  | some _, none => False
  | some l, some l2 => List.Forall₂ (fun a b => statusLe a b = true) l l2

/-- Sum of final line costs over the approved verdicts of a report. -/
def sumApprovedCosts (vs : List PartVerdict) : Rat :=
  ((vs.filter (fun v => decide (v.verdict = VerdictKind.approvedK))).map
    (fun v => v.final_line_cost)).sum

theorem spend_foldl (vs : List PartVerdict) (a : Rat) :
    vs.foldl (fun acc v => if v.verdict = VerdictKind.approvedK then acc + v.final_line_cost else acc) a
      = a + sumApprovedCosts vs := by
  induction vs generalizing a with
  | nil => simp [sumApprovedCosts]
  | cons v t ih =>
    by_cases h : v.verdict = VerdictKind.approvedK
    · simp only [List.foldl_cons, if_pos h, ih, sumApprovedCosts, List.filter_cons,
        decide_eq_true_eq, h, if_pos, List.map_cons, List.sum_cons]
      ring
    · simp only [List.foldl_cons, if_neg h, ih, sumApprovedCosts, List.filter_cons,
        decide_eq_true_eq, h, if_false]

theorem verdict_count_general {α : Type} (f : α → VerdictKind) (vs : List α) :
    vs.countP (fun v => decide (f v = VerdictKind.approvedK))
      + vs.countP (fun v => decide (f v = VerdictKind.rejectedK)) = vs.length := by
  induction vs with
  | nil => simp
  | cons v t ih =>
    cases hv : f v <;>
      simp [List.countP_cons, hv, ih] <;> omega

theorem verdict_count (vs : List PartVerdict) :
    vs.countP (fun v => decide (v.verdict = VerdictKind.approvedK))
      + vs.countP (fun v => decide (v.verdict = VerdictKind.rejectedK)) = vs.length := by
  induction vs with
  | nil => simp
  | cons v t ih =>
    cases hv : v.verdict <;>
      simp [List.countP_cons, hv, ih] <;> omega

/-- C4: every FinalDecisionReport built by make_final_decisions, whatever
the structured LLM output, satisfies: total_spend is the sum of
final_line_cost over APPROVED verdicts; total_approved plus total_rejected
equals the number of verdicts; budget_utilization_pct is 0 when
context.budget_total is 0 (no division fault); and an empty item list
yields a well-formed zero-valued report rather than an error. -/
theorem C4_final_report_invariants
    (reportId : String) (items : List BOMLineItem) (ctx : ProjectContext)
    (engR srcR finR : SpecialistAgentResult)
    (llm : Except String LLMFinalDecisionOutput) (report : FinalDecisionReport)
    (h : makeFinalDecisions reportId items ctx engR srcR finR llm = .ok report) :
    report.total_spend = sumApprovedCosts report.verdicts ∧
    report.total_approved + report.total_rejected = report.verdicts.length ∧
    (ctx.budget_total = 0 → report.budget_utilization_pct = 0) ∧
    (items = [] →
      report.verdicts = [] ∧ report.total_spend = 0 ∧ report.total_approved = 0 ∧
      report.total_rejected = 0 ∧ report.budget_utilization_pct = 0) := by
  unfold makeFinalDecisions at h
  by_cases hi : items.isEmpty
  · rw [if_pos hi] at h
    injection h with h
    subst h
    simp [emptyFinalReport, sumApprovedCosts]
  · rw [if_neg hi] at h
    cases llm with
    | error e => exact absurd h (by simp)
    | ok out =>
      simp only [Except.ok.injEq] at h
      subst h
      refine ⟨?_, ?_, ?_, ?_⟩
      · show (buildFinalReport reportId items ctx out).total_spend
          = sumApprovedCosts (buildFinalReport reportId items ctx out).verdicts
        simp [buildFinalReport, spend_foldl]
      · show _ + _ = _
        simp only [buildFinalReport, List.countP_map, List.length_map, Function.comp]
        exact verdict_count_general (fun v => (convertVerdict v).verdict) out.verdicts
      · intro hb
        simp [buildFinalReport, hb]
      · intro hit
        rw [hit] at hi
        simp at hi

/-- Witness for C4 at a concrete input. -/
theorem C4_final_report_invariants_witness :
    ∃ report, makeFinalDecisions "r1"
        [{ mpn := "X1" }] { budget_total := 0 } {} {} {}
        (.ok { verdicts := [{ mpn := "X1", verdict := .approvedK, final_line_cost := 6 }] }) = .ok report ∧
      (report.total_spend = sumApprovedCosts report.verdicts ∧
       report.total_approved + report.total_rejected = report.verdicts.length ∧
       ((({ budget_total := 0 } : ProjectContext)).budget_total = 0 → report.budget_utilization_pct = 0)) := by
  refine ⟨_, rfl, ?_⟩
  have h := C4_final_report_invariants "r1" [{ mpn := "X1" }] { budget_total := 0 } {} {} {}
    (.ok { verdicts := [{ mpn := "X1", verdict := .approvedK, final_line_cost := 6 }] }) _ rfl
  exact ⟨h.1, h.2.1, h.2.2.1⟩

/-- C10: for every evaluated batch, the engineering result key_concerns
list deterministically contains, for each banned item, an entry built from
that item MPN and its ban reason, independent of the LLM output raw. -/
theorem C10_engineering_flags_banned_parts
    (org : OrgKnowledgeStore) (items : List BOMLineItem) (llm : Except String String)
    (raw : String) (it : BOMLineItem)
    (hmem : it ∈ items) (hban : (org.isPartBanned it.mpn).1 = true)
    (hllm : llm = .ok raw) :
    ∃ res, engineeringEvaluateBatch org items llm = .ok res ∧
      (it.mpn ++ ": BANNED - " ++ (org.isPartBanned it.mpn).2) ∈ res.key_concerns := by
  have hne : items ≠ [] := List.ne_nil_of_mem hmem
  have hie : items.isEmpty = false := by
    cases items with
    | nil => exact absurd rfl hne
    | cons a t => rfl
  subst hllm
  have hconcern : (it.mpn ++ ": BANNED - " ++ (org.isPartBanned it.mpn).2)
      ∈ engineeringKeyConcerns org items := by
    unfold engineeringKeyConcerns
    refine List.mem_filterMap.mpr ⟨it, hmem, ?_⟩
    simp [hban]
  refine ⟨{ agent_name := "EngineeringAgent"
            parts_evaluated := items.map (fun x => x.mpn)
            analysis_notes := raw
            key_concerns := engineeringKeyConcerns org items
            recommendations := []
            raw_response := raw }, ?_, hconcern⟩
  unfold engineeringEvaluateBatch
  rw [hie]
  simp

/-- Concrete banned-part knowledge store for the C10 witness. -/
def C10org : OrgKnowledgeStore :=
  { isPartBanned := fun m => if m = "X1" then (true, "counterfeit risk") else (false, "") }

/-- Concrete banned line item for the C10 witness. -/
def C10item : BOMLineItem := { mpn := "X1" }

/-- Witness for C10 at a concrete banned part. -/
theorem C10_engineering_flags_banned_parts_witness :
    ∃ res, engineeringEvaluateBatch C10org [C10item] (.ok "analysis") = .ok res ∧
      (C10item.mpn ++ ": BANNED - " ++ (C10org.isPartBanned C10item.mpn).2) ∈ res.key_concerns := by
  exact C10_engineering_flags_banned_parts C10org [C10item] (.ok "analysis") "analysis" C10item
    (by simp) (by decide) rfl

/-- C5 amended: intake row parsing defaults an absent quantity to 1 and an
absent MPN to the empty string without raising, still creating the line
item; but a quantity cell that is present and not an integer literal makes
int() raise, and intake then catches the error, records it on the flow
state and fails the run without creating the project, rather than
defaulting. -/
theorem C5_parse_defaults_and_malformed_quantity :
    (∀ row : List (String × String),
        rowGet row "Quantity" = none → rowGet row "Qty" = none →
        ∃ item, parseRow row = .ok item ∧ item.quantity = 1 ∧
          item.mpn = (rowGet row "MPN").getD ((rowGet row "Part Number").getD "") ∧
          item.status = LineItemStatus.pending) ∧
    (∀ row : List (String × String), ∀ qs : String,
        (rowGet row "Quantity" = some qs ∨
          (rowGet row "Quantity" = none ∧ rowGet row "Qty" = some qs)) →
        pyIntVal qs = none →
        parseRow row = .error ("invalid literal for int(): " ++ qs)) ∧
    (∀ env : FlowEnv, ∀ e : String, ∀ c : ProjectContext,
        env.onStep = none →
        env.intakeCtxResult = .ok c →
        env.bomFile.bind parseBom = .error e →
        (intake env initSt).flowError = some e ∧
        (intake env initSt).store = none ∧
        (intake env initSt).uncaught = none) := by
  refine ⟨?_, ?_, ?_⟩
  · intro row h1 h2
    unfold parseRow
    rw [h1, h2]
    exact ⟨_, rfl, rfl, rfl, rfl⟩
  · intro row qs hq htoInt
    unfold parseRow
    rcases hq with hq | ⟨hq1, hq2⟩
    · rw [hq]
      simp [pyInt, htoInt]
    · rw [hq1, hq2]
      simp [pyInt, htoInt]
  · intro env e c honstep hctx hbom
    simp [intake, initSt, logStep, intakeErrorHandler, honstep, hctx, hbom]

/-- Concrete environment for C5: a BOM row whose Quantity cell is present
but not an integer literal. -/
def C5env : FlowEnv := { bomFile := .ok [[("MPN", "X1"), ("Quantity", "abc")]] }

/-- C5 counterexample: on a row with a malformed quantity, intake parsing
raises instead of defaulting; the run fails with the parse error recorded
and no line item or project is ever created, contradicting the claim that
intake never raises on a malformed quantity field and still creates the
line item. -/
theorem C5_counterexample :
    (runFlow C5env).flowError = some ("invalid literal for int(): " ++ "abc") ∧
    (runFlow C5env).store = none := by
  constructor <;> rfl

/-- Witness for the amended C5 at concrete rows and a concrete
environment. -/
theorem C5_parse_defaults_and_malformed_quantity_witness :
    (∃ item, parseRow [("MPN", "X1")] = .ok item ∧ item.quantity = 1 ∧
       item.mpn = (rowGet [("MPN", "X1")] "MPN").getD ((rowGet [("MPN", "X1")] "Part Number").getD "") ∧
       item.status = LineItemStatus.pending) ∧
    parseRow [("MPN", "X1"), ("Quantity", "abc")] = .error ("invalid literal for int(): " ++ "abc") ∧
    ((intake C5env initSt).flowError = some "invalid literal for int(): abc" ∧
     (intake C5env initSt).store = none ∧
     (intake C5env initSt).uncaught = none) := by
  refine ⟨?_, ?_, ?_⟩
  · exact C5_parse_defaults_and_malformed_quantity.1 [("MPN", "X1")] rfl rfl
  · exact C5_parse_defaults_and_malformed_quantity.2.1 [("MPN", "X1"), ("Quantity", "abc")] "abc"
      (Or.inl rfl) (by decide)
  · exact C5_parse_defaults_and_malformed_quantity.2.2 C5env "invalid literal for int(): abc" {}
      rfl rfl rfl

theorem logStep_poison (env : FlowEnv) (n m : String) (a r : Option String)
    (f : List String) (s : FlowSt) (h : s.uncaught.isSome) :
    logStep env n m a r f s = s := by
  unfold logStep
  simp [h]

theorem logStep_flowError (env : FlowEnv) (n m : String) (a r : Option String)
    (f : List String) (s : FlowSt) :
    (logStep env n m a r f s).flowError = s.flowError := by
  unfold logStep
  by_cases hu : s.uncaught.isSome
  · simp [hu]
  · cases hp : s.project <;> cases ho : env.onStep <;>
      simp [hu, hp, ho] <;> split <;> simp

theorem logStep_offers (env : FlowEnv) (n m : String) (a r : Option String)
    (f : List String) (s : FlowSt) :
    (logStep env n m a r f s).offers = s.offers := by
  unfold logStep
  by_cases hu : s.uncaught.isSome
  · simp [hu]
  · cases hp : s.project <;> cases ho : env.onStep <;>
      simp [hu, hp, ho] <;> split <;> simp

theorem logStep_engineeringResult (env : FlowEnv) (n m : String) (a r : Option String)
    (f : List String) (s : FlowSt) :
    (logStep env n m a r f s).engineeringResult = s.engineeringResult := by
  unfold logStep
  by_cases hu : s.uncaught.isSome
  · simp [hu]
  · cases hp : s.project <;> cases ho : env.onStep <;>
      simp [hu, hp, ho] <;> split <;> simp

theorem logStep_sourcingResult (env : FlowEnv) (n m : String) (a r : Option String)
    (f : List String) (s : FlowSt) :
    (logStep env n m a r f s).sourcingResult = s.sourcingResult := by
  unfold logStep
  by_cases hu : s.uncaught.isSome
  · simp [hu]
  · cases hp : s.project <;> cases ho : env.onStep <;>
      simp [hu, hp, ho] <;> split <;> simp

theorem logStep_financeResult (env : FlowEnv) (n m : String) (a r : Option String)
    (f : List String) (s : FlowSt) :
    (logStep env n m a r f s).financeResult = s.financeResult := by
  unfold logStep
  by_cases hu : s.uncaught.isSome
  · simp [hu]
  · cases hp : s.project <;> cases ho : env.onStep <;>
      simp [hu, hp, ho] <;> split <;> simp

theorem logStep_marketIntelReport (env : FlowEnv) (n m : String) (a r : Option String)
    (f : List String) (s : FlowSt) :
    (logStep env n m a r f s).marketIntelReport = s.marketIntelReport := by
  unfold logStep
  by_cases hu : s.uncaught.isSome
  · simp [hu]
  · cases hp : s.project <;> cases ho : env.onStep <;>
      simp [hu, hp, ho] <;> split <;> simp

theorem logStep_finalReport (env : FlowEnv) (n m : String) (a r : Option String)
    (f : List String) (s : FlowSt) :
    (logStep env n m a r f s).finalReport = s.finalReport := by
  unfold logStep
  by_cases hu : s.uncaught.isSome
  · simp [hu]
  · cases hp : s.project <;> cases ho : env.onStep <;>
      simp [hu, hp, ho] <;> split <;> simp

theorem logStep_project_lineItems (env : FlowEnv) (n m : String) (a r : Option String)
    (f : List String) (s : FlowSt) :
    (logStep env n m a r f s).project.map Project.line_items
      = s.project.map Project.line_items := by
  unfold logStep
  by_cases hu : s.uncaught.isSome
  · simp [hu]
  · cases hp : s.project <;> cases ho : env.onStep <;>
      simp [hu, hp, ho] <;> split <;> simp

theorem logStep_project_status (env : FlowEnv) (n m : String) (a r : Option String)
    (f : List String) (s : FlowSt) :
    (logStep env n m a r f s).project.map Project.status
      = s.project.map Project.status := by
  unfold logStep
  by_cases hu : s.uncaught.isSome
  · simp [hu]
  · cases hp : s.project <;> cases ho : env.onStep <;>
      simp [hu, hp, ho] <;> split <;> simp

theorem logStep_store_of_project_none (env : FlowEnv) (n m : String) (a r : Option String)
    (f : List String) (s : FlowSt) (h : s.project = none) :
    (logStep env n m a r f s).store = s.store := by
  unfold logStep
  by_cases hu : s.uncaught.isSome
  · simp [hu]
  · cases ho : env.onStep <;>
      simp [hu, h, ho] <;> split <;> simp

theorem logStep_proj_eq_store (env : FlowEnv) (n m : String) (a r : Option String)
    (f : List String) (s : FlowSt) (h : s.project = s.store) :
    (logStep env n m a r f s).project = (logStep env n m a r f s).store := by
  unfold logStep
  by_cases hu : s.uncaught.isSome
  · simp [hu, h]
  · cases hp : s.project <;> cases ho : env.onStep <;>
      simp [hu, hp, ho, h.symm.trans hp] <;> split <;> simp [hp ▸ h]

theorem logStep_statusesOf (env : FlowEnv) (n m : String) (a r : Option String)
    (f : List String) (s : FlowSt) (h : s.project = s.store) :
    statusesOf (logStep env n m a r f s) = statusesOf s := by
  unfold logStep statusesOf
  by_cases hu : s.uncaught.isSome
  · simp [hu]
  · cases hp : s.project <;> cases ho : env.onStep <;>
      simp [hu, hp, ho, h.symm.trans hp] <;> split <;> simp [hp ▸ h]

theorem logStep_storeStatus (env : FlowEnv) (n m : String) (a r : Option String)
    (f : List String) (s : FlowSt) (h : s.project = s.store) :
    storeStatus (logStep env n m a r f s) = storeStatus s := by
  unfold logStep storeStatus
  by_cases hu : s.uncaught.isSome
  · simp [hu]
  · cases hp : s.project <;> cases ho : env.onStep <;>
      simp [hu, hp, ho, h.symm.trans hp] <;> split <;> simp [hp ▸ h]

theorem logStep_uncaught_of_onStep_none (env : FlowEnv) (n m : String) (a r : Option String)
    (f : List String) (s : FlowSt) (h : env.onStep = none) :
    (logStep env n m a r f s).uncaught = s.uncaught := by
  unfold logStep
  by_cases hu : s.uncaught.isSome
  · simp [hu]
  · cases hp : s.project <;> simp [hu, hp, h]

theorem logStep_callback_sync (env : FlowEnv) (n m : String) (a r : Option String)
    (f : List String) (s : FlowSt) (g : FlowTraceStep → Except String Unit)
    (hg : env.onStep = some g) (h : s.callbackLog = s.produced) :
    (logStep env n m a r f s).callbackLog = (logStep env n m a r f s).produced := by
  unfold logStep
  by_cases hu : s.uncaught.isSome
  · simp [hu, h]
  · cases hp : s.project <;>
      simp [hu, hp, hg, h] <;> split <;> simp [h]

theorem withProject_offers (s : FlowSt) (f : Project → Project) :
    (withProject s f).offers = s.offers := by
  unfold withProject
  cases s.project <;> rfl

theorem withProject_flowError (s : FlowSt) (f : Project → Project) :
    (withProject s f).flowError = s.flowError := by
  unfold withProject
  cases s.project <;> rfl

theorem withProject_uncaught (s : FlowSt) (f : Project → Project) :
    (withProject s f).uncaught = s.uncaught := by
  unfold withProject
  cases s.project <;> rfl

theorem withProject_store (s : FlowSt) (f : Project → Project) :
    (withProject s f).store = s.store := by
  unfold withProject
  cases s.project <;> rfl

theorem withProject_callbackLog (s : FlowSt) (f : Project → Project) :
    (withProject s f).callbackLog = s.callbackLog := by
  unfold withProject
  cases s.project <;> rfl

theorem withProject_produced (s : FlowSt) (f : Project → Project) :
    (withProject s f).produced = s.produced := by
  unfold withProject
  cases s.project <;> rfl

theorem persistProject_offers (s : FlowSt) :
    (persistProject s).offers = s.offers := by
  unfold persistProject
  cases s.project <;> rfl

theorem persistProject_flowError (s : FlowSt) :
    (persistProject s).flowError = s.flowError := by
  unfold persistProject
  cases s.project <;> rfl

theorem persistProject_uncaught (s : FlowSt) :
    (persistProject s).uncaught = s.uncaught := by
  unfold persistProject
  cases s.project <;> rfl

theorem persistProject_callbackLog (s : FlowSt) :
    (persistProject s).callbackLog = s.callbackLog := by
  unfold persistProject
  cases s.project <;> rfl

theorem persistProject_produced (s : FlowSt) :
    (persistProject s).produced = s.produced := by
  unfold persistProject
  cases s.project <;> rfl

theorem logStep_store_isSome (env : FlowEnv) (n m : String) (a r : Option String)
    (f : List String) (s : FlowSt) (h : s.store.isSome) :
    (logStep env n m a r f s).store.isSome := by
  unfold logStep
  by_cases hu : s.uncaught.isSome
  · simp [hu, h]
  · cases hp : s.project <;> cases ho : env.onStep <;>
      simp [hu, hp, ho, h] <;> split <;> simp [h]



theorem proj_store_logStep_chain (env : FlowEnv) (n m : String) (a r : Option String)
    (f : List String) (t : FlowSt) (h : t.project = t.store) :
    (logStep env n m a r f t).project = (logStep env n m a r f t).store ∧
    storeStatus (logStep env n m a r f t) = storeStatus t := by
  exact ⟨logStep_proj_eq_store env n m a r f t h, logStep_storeStatus env n m a r f t h⟩

/-- C6: the market intelligence stage is best-effort. Whatever the
provider does, the stage never writes the flow error and never changes the
stored project status (in particular it never becomes failed); when the
stage can fetch its project it never raises past the stage on its own
(with a quiet callback); and a raising provider is swallowed into exactly
one failure trace message after the start message, leaving the state
unpoisoned so the pipeline continues to the next stage. -/
theorem C6_market_intel_failure_is_soft (env : FlowEnv) (s : FlowSt) :
    (gatherMarketIntel env s).flowError = s.flowError ∧
    (s.project = s.store → storeStatus (gatherMarketIntel env s) = storeStatus s) ∧
    (∀ p : Project, env.onStep = none → s.store = some p →
      (gatherMarketIntel env s).uncaught = s.uncaught) ∧
    (∀ (g : List BOMLineItem → ProjectContext → Except String MarketIntelReport)
        (p : Project) (e : String),
      env.onStep = none → s.uncaught = none → s.flowError = none →
      env.marketIntelAgent = some g → s.store = some p → s.project = some p →
      g p.line_items p.context = .error e →
      (gatherMarketIntel env s).uncaught = none ∧
      (gatherMarketIntel env s).produced = s.produced ++
        [{ step := "market_intel", agent := none
           message := "Starting market intelligence gathering via Apify"
           reasoning := none, references := [] },
         { step := "market_intel", agent := some "MarketIntelAgent"
           message := "Market intel gathering failed: " ++ e
           reasoning := none, references := [] }]) := by
  have hL : ∀ n m a r f (t : FlowSt), (logStep env n m a r f t).flowError = t.flowError :=
    fun n m a r f t => logStep_flowError env n m a r f t
  refine ⟨?_, ?_, ?_, ?_⟩
  · simp only [gatherMarketIntel]
    repeat' split
    all_goals simp [hL, apply_ite FlowSt.flowError]
  · intro hps
    simp only [gatherMarketIntel]
    split
    · rfl
    split
    · rfl
    split
    · exact logStep_storeStatus _ _ _ _ _ _ _ hps
    split
    · exact logStep_storeStatus _ _ _ _ _ _ _ hps
    split
    · simpa [storeStatus] using logStep_storeStatus env
        "market_intel" "Starting market intelligence gathering via Apify" none none [] s hps
    rename_i g hg hu1 p hp
    have h1s : storeStatus (logStep env "market_intel"
        "Starting market intelligence gathering via Apify" none none [] s) = storeStatus s :=
      logStep_storeStatus _ _ _ _ _ _ _ hps
    have h2 : ∀ mi : Option MarketIntelReport,
        ({ logStep env "market_intel" "Starting market intelligence gathering via Apify" none none [] s with
           project := some p, marketIntelReport := mi } : FlowSt).project
        = ({ logStep env "market_intel" "Starting market intelligence gathering via Apify" none none [] s with
           project := some p, marketIntelReport := mi } : FlowSt).store := by
      intro mi
      simpa using hp.symm
    have h2s : ∀ mi : Option MarketIntelReport,
        storeStatus ({ logStep env "market_intel" "Starting market intelligence gathering via Apify" none none [] s with
           project := some p, marketIntelReport := mi } : FlowSt) = storeStatus s := by
      intro mi
      simpa [storeStatus] using h1s
    split
    · rename_i e he
      rw [logStep_storeStatus _ _ _ _ _ _ _ (by simpa using hp.symm)]
      simpa [storeStatus] using h1s
    rename_i r hr
    split
    · rw [logStep_storeStatus _ _ _ _ _ _ _ (h2 (some r))]
      exact h2s (some r)
    have h4 := proj_store_logStep_chain env "market_intel"
      ("Gathered " ++ toString r.items.length ++ " intel items from "
        ++ toString r.total_sources_scraped ++ " sources")
      (some "MarketIntelAgent") none []
      ({ logStep env "market_intel" "Starting market intelligence gathering via Apify" none none [] s with
         project := some p, marketIntelReport := some r } : FlowSt) (h2 (some r))
    have h4s := (h4.2).trans (h2s (some r))
    by_cases hrisks : r.supply_chain_risks.isEmpty
    · simp only [hrisks, if_true]
      split
      · exact h4s
      · rw [logStep_storeStatus _ _ _ _ _ _ _ h4.1]
        exact h4s
    · simp only [hrisks, if_false, Bool.false_eq_true]
      have h5 := proj_store_logStep_chain env "market_intel"
        ("Supply chain risks identified: " ++ toString r.supply_chain_risks.length)
        (some "MarketIntelAgent") (some (bulletJoin (r.supply_chain_risks.take 5))) []
        _ h4.1
      have h5s := (h5.2).trans h4s
      split
      · exact h5s
      · rw [logStep_storeStatus _ _ _ _ _ _ _ h5.1]
        exact h5s
  · intro p honstep hstore
    have hLu : ∀ n m a r f (t : FlowSt), (logStep env n m a r f t).uncaught = t.uncaught :=
      fun n m a r f t => logStep_uncaught_of_onStep_none env n m a r f t honstep
    simp only [gatherMarketIntel]
    split
    · rfl
    split
    · rfl
    split
    · exact hLu _ _ _ _ _ _
    split
    · exact hLu _ _ _ _ _ _
    · rename_i g hg hu1
      have hsome : (logStep env "market_intel"
          "Starting market intelligence gathering via Apify" none none [] s).store.isSome :=
        logStep_store_isSome _ _ _ _ _ _ _ (by simp [hstore])
      split
      · rename_i hnone
        rw [hnone] at hsome
        simp at hsome
      · rename_i q hq
        split
        · rw [hLu]
          exact hLu _ _ _ _ _ _
        · rename_i r hr
          split
          · rw [hLu]
            exact hLu _ _ _ _ _ _
          · by_cases hrisks : r.supply_chain_risks.isEmpty <;>
              simp only [hrisks, if_true, if_false, Bool.false_eq_true] <;>
              split <;> simp only [hLu]
  · intro g p e honstep hu hf hg hstore hproj herr
    simp [gatherMarketIntel, logStep, hu, hf, hg, hstore, hproj, honstep, herr, storeStatus]

/-- Concrete environment for the C6 witness: a configured market intel
agent that always raises. -/
def C6env : FlowEnv :=
  { marketIntelAgent := some (fun _ _ => .error "apify down"), onStep := none }

/-- Concrete mid-run state for the C6 witness: a stored project after
enrichment. -/
def C6proj : Project :=
  { project_id := "P6", status := "enriching", line_items := [{ mpn := "X1" }] }

/-- Concrete state for the C6 witness. -/
def C6st : FlowSt := { project := some C6proj, store := some C6proj }

/-- Witness for C6 at a concrete raising provider. -/
theorem C6_market_intel_failure_is_soft_witness :
    (gatherMarketIntel C6env C6st).flowError = C6st.flowError ∧
    storeStatus (gatherMarketIntel C6env C6st) = storeStatus C6st ∧
    (gatherMarketIntel C6env C6st).uncaught = C6st.uncaught ∧
    (gatherMarketIntel C6env C6st).uncaught = none ∧
    (gatherMarketIntel C6env C6st).produced = C6st.produced ++
      [{ step := "market_intel", agent := none
         message := "Starting market intelligence gathering via Apify"
         reasoning := none, references := [] },
       { step := "market_intel", agent := some "MarketIntelAgent"
         message := "Market intel gathering failed: " ++ "apify down"
         reasoning := none, references := [] }] := by
  have h := C6_market_intel_failure_is_soft C6env C6st
  have h4 := h.2.2.2 (fun _ _ => .error "apify down") C6proj "apify down"
    rfl rfl rfl rfl rfl rfl rfl
  exact ⟨h.1, h.2.1 rfl, h.2.2.1 C6proj rfl rfl, h4.1, h4.2⟩

/-- The last item of the enrich loop whose MPN is the given key; its
write is the one that survives in the offer store. -/
def mockFind (items : List BOMLineItem) (x : String) : Option BOMLineItem :=
  items.reverse.find? (fun it => decide (x = it.mpn))

theorem enrichOffers_apply (env : FlowEnv) (items : List BOMLineItem) (m : OffersMap) (x : String) :
    enrichOffers env items m x =
      match mockFind items x with
      | some it => some (env.createMockOffers it.mpn it.manufacturer it.description)
      | none => m x := by
  induction items generalizing m with
  | nil => simp [enrichOffers, mockFind]
  | cons it t ih =>
    have hstep : enrichOffers env (it :: t) m
        = enrichOffers env t (setOffers m it.mpn (env.createMockOffers it.mpn it.manufacturer it.description)) := rfl
    rw [hstep, ih]
    have hrev : mockFind (it :: t) x
        = ((t.reverse.find? (fun i => decide (x = i.mpn))).or
            ([it].find? (fun i => decide (x = i.mpn)))) := by
      simp [mockFind, List.find?_append]
    rw [hrev]
    cases hf : t.reverse.find? (fun i => decide (x = i.mpn)) with
    | some j => simp [mockFind, hf]
    | none =>
      simp only [mockFind, hf, Option.none_or, List.find?_cons, List.find?_nil]
      by_cases hx : x = it.mpn <;> simp [hx, setOffers]

theorem enrichOffers_overwrite (env : FlowEnv) (items : List BOMLineItem) (m : OffersMap) :
    enrichOffers env (items.map (fun it => { it with status := LineItemStatus.enriched }))
        (enrichOffers env items m)
      = enrichOffers env items m := by
  funext x
  rw [enrichOffers_apply env (items.map (fun it => { it with status := LineItemStatus.enriched }))]
  have hfind : mockFind (items.map (fun it => { it with status := LineItemStatus.enriched })) x
      = (mockFind items x).map (fun it => { it with status := LineItemStatus.enriched }) := by
    unfold mockFind
    rw [← List.map_reverse, List.find?_map]
    rfl
  rw [hfind]
  cases hf : mockFind items x with
  | some j =>
    rw [enrichOffers_apply env items m x, hf]
    rfl
  | none => rfl

theorem enrich_poison (env : FlowEnv) (s : FlowSt) (h : s.uncaught.isSome) :
    enrich env s = s := by
  unfold enrich
  simp [h]

theorem enrich_error_noop (env : FlowEnv) (s : FlowSt)
    (hu : s.uncaught.isSome = false) (hf : s.flowError.isSome) :
    enrich env s = s := by
  unfold enrich
  simp [hu, hf]

theorem logStep_store_lineItems (env : FlowEnv) (n m : String) (a r : Option String)
    (f : List String) (t : FlowSt) :
    (logStep env n m a r f t).store.map Project.line_items = t.store.map Project.line_items ∨
    (logStep env n m a r f t).store.map Project.line_items = t.project.map Project.line_items := by
  unfold logStep
  by_cases hu : t.uncaught.isSome
  · left
    simp [hu]
  · cases hp : t.project with
    | none =>
      left
      cases ho : env.onStep <;> simp [hu, hp, ho] <;> split <;> simp
    | some p =>
      right
      cases ho : env.onStep <;> simp [hu, hp, ho] <;> split <;> simp

/-- Characterization of a non-short-circuited enrich run: either it ends
poisoned, or the store project it read determines the offer writes and
every item of the resulting project and store is the enriched copy of
that project. -/
theorem enrich_offers_in (env : FlowEnv) (s : FlowSt)
    (hu : s.uncaught.isSome = false) (hf : s.flowError.isSome = false) :
    (enrich env s).uncaught.isSome ∨
    (∃ p0, (logStep env "enrich" "Starting enrichment" none none [] s).store = some p0 ∧
      (enrich env s).offers = enrichOffers env p0.line_items s.offers ∧
      (∀ q, (enrich env s).project = some q →
        q.line_items = p0.line_items.map (fun it => { it with status := LineItemStatus.enriched })) ∧
      (∀ q, (enrich env s).store = some q →
        q.line_items = p0.line_items.map (fun it => { it with status := LineItemStatus.enriched }))) := by
  unfold enrich
  simp only [hu, hf, if_false, Bool.false_eq_true]
  split
  · left
    rename_i h1
    simpa using h1
  · rename_i h1
    split
    · left
      simp
    · rename_i p0 hp0
      right
      refine ⟨p0, hp0, ?_, ?_, ?_⟩
      · rw [logStep_offers]
        simp [withProject, persistProject, logStep_offers]
      · intro q hq
        have hdisj := logStep_project_lineItems env "enrich"
          ("Enriched " ++ toString p0.line_items.length ++ "/"
            ++ toString p0.line_items.length ++ " items with supplier data") none none []
          (persistProject (withProject
            { logStep env "enrich" "Starting enrichment" none none [] s with
              project := some { p0 with status := "enriching" }
              offers := enrichOffers env p0.line_items
                (logStep env "enrich" "Starting enrichment" none none [] s).offers }
            (fun p => { p with line_items := p.line_items.map (fun it => { it with status := LineItemStatus.enriched }) })))
        rw [hq] at hdisj
        simpa [withProject, persistProject] using hdisj
      · intro q hq
        have hdisj := logStep_store_lineItems env "enrich"
          ("Enriched " ++ toString p0.line_items.length ++ "/"
            ++ toString p0.line_items.length ++ " items with supplier data") none none []
          (persistProject (withProject
            { logStep env "enrich" "Starting enrichment" none none [] s with
              project := some { p0 with status := "enriching" }
              offers := enrichOffers env p0.line_items
                (logStep env "enrich" "Starting enrichment" none none [] s).offers }
            (fun p => { p with line_items := p.line_items.map (fun it => { it with status := LineItemStatus.enriched }) })))
        rw [hq] at hdisj
        rcases hdisj with h | h <;> simpa [withProject, persistProject] using h

/-- Characterization of the offers side of any enrich run: offers are
either untouched or rebuilt by the fold over the fetched project items. -/
theorem enrich_offers_out (env : FlowEnv) (r : FlowSt) :
    (enrich env r).offers = r.offers ∨
    (∃ pX, (logStep env "enrich" "Starting enrichment" none none [] r).store = some pX ∧
      (enrich env r).offers = enrichOffers env pX.line_items r.offers) := by
  unfold enrich
  by_cases hu : r.uncaught.isSome
  · left
    simp [hu]
  · by_cases hf : r.flowError.isSome
    · left
      simp [hu, hf]
    · simp only [hu, hf, if_false, Bool.false_eq_true]
      split
      · left
        rw [logStep_offers]
      · split
        · left
          simp [logStep_offers]
        · rename_i pX hpX
          right
          refine ⟨pX, hpX, ?_⟩
          rw [logStep_offers]
          simp [withProject, persistProject, logStep_offers]

/-- C7: invoking the enrich stage twice yields the same Offer Store
contents as invoking it once; for every MPN the second run overwrites the
stored offers with the same value rather than appending duplicates. -/
theorem C7_enrich_idempotent_offers (env : FlowEnv) (s : FlowSt) :
    (enrich env (enrich env s)).offers = (enrich env s).offers := by
  by_cases hu : s.uncaught.isSome
  · rw [enrich_poison env s hu, enrich_poison env s hu]
  · by_cases hf : s.flowError.isSome
    · have hnoop : enrich env s = s := enrich_error_noop env s (by simpa using hu) hf
      rw [hnoop, hnoop]
    · rcases enrich_offers_in env s (by simpa using hu) (by simpa using hf) with
        hpo | ⟨p0, hq, hoff, hproj, hstore⟩
      · rw [enrich_poison env _ hpo]
      · rcases enrich_offers_out env (enrich env s) with hL | ⟨pX, hX, heq⟩
        · exact hL
        · have hpx : pX.line_items
              = p0.line_items.map (fun it => { it with status := LineItemStatus.enriched }) := by
            rcases logStep_store_lineItems env "enrich" "Starting enrichment" none none []
              (enrich env s) with hd | hd
            · rw [hX] at hd
              cases hes : (enrich env s).store with
              | none =>
                rw [hes] at hd
                simp at hd
              | some q =>
                rw [hes] at hd
                simp only [Option.map_some'] at hd
                have := hstore q hes
                injection hd with hd2
                rw [hd2, this]
            · rw [hX] at hd
              cases hes : (enrich env s).project with
              | none =>
                rw [hes] at hd
                simp at hd
              | some q =>
                rw [hes] at hd
                simp only [Option.map_some'] at hd
                have := hproj q hes
                injection hd with hd2
                rw [hd2, this]
          rw [heq, hoff, hpx]
          exact enrichOffers_overwrite env p0.line_items s.offers

theorem finalDecision_poison (env : FlowEnv) (s : FlowSt) (h : s.uncaught.isSome) :
    finalDecision env s = s := by
  unfold finalDecision
  simp [h]

theorem complete_poison (env : FlowEnv) (s : FlowSt) (h : s.uncaught.isSome) :
    complete env s = s := by
  unfold complete
  simp [h]

theorem parallelReview_poison (env : FlowEnv) (s : FlowSt) (h : s.uncaught.isSome) :
    parallelReview env s = s := by
  unfold parallelReview
  simp [h]

theorem gatherMarketIntel_poison (env : FlowEnv) (s : FlowSt) (h : s.uncaught.isSome) :
    gatherMarketIntel env s = s := by
  unfold gatherMarketIntel
  simp [h]

theorem logStep_of_project_some (env : FlowEnv) (n m : String) (a r : Option String)
    (f : List String) (s : FlowSt) (p : Project)
    (hu : s.uncaught = none) (hp : s.project = some p) :
    (logStep env n m a r f s).project = some { p with trace := p.trace ++ [⟨n, a, m, r, f⟩] } ∧
    (logStep env n m a r f s).store = some { p with trace := p.trace ++ [⟨n, a, m, r, f⟩] } := by
  unfold logStep
  simp only [hu, hp, Option.isSome_none, Bool.false_eq_true, if_false]
  cases ho : env.onStep with
  | none => exact ⟨rfl, rfl⟩
  | some g =>
    cases hg : g { step := n, agent := a, message := m, reasoning := r, references := f } <;>
      simp [hg]

/-- C1 amended: when one of the three specialist evaluators raises during
parallel review (over a nonempty enriched batch), the exception propagates
out of the stage uncaught: the final-decision and complete stages then run
as no-ops, no line item status changes (in particular none reaches
PENDING_FINAL_DECISION), but the flow error field stays unset and the
stored project status is left at its previous value rather than becoming
failed. -/
theorem C1_evaluator_exception_leaves_error_unset (env : FlowEnv) (s : FlowSt) (p : Project)
    (hu : s.uncaught = none) (hf : s.flowError = none)
    (hps : s.project = s.store) (hstore : s.store = some p)
    (hne : reviewFilter p.line_items ≠ [])
    (hfail :
      (∃ e, env.evalEng (reviewFilter p.line_items) p.context s.offers = .error e) ∨
      (∃ e, env.evalSrc (reviewFilter p.line_items) p.context s.offers s.marketIntelReport = .error e) ∨
      (∃ e, env.evalFin (reviewFilter p.line_items) p.context s.offers = .error e)) :
    (parallelReview env s).uncaught.isSome ∧
    (parallelReview env s).flowError = none ∧
    statusesOf (parallelReview env s) = statusesOf s ∧
    storeStatus (parallelReview env s) = storeStatus s ∧
    finalDecision env (parallelReview env s) = parallelReview env s ∧
    complete env (parallelReview env s) = parallelReview env s := by
  have hproj : s.project = some p := hps.trans hstore
  have hlog := logStep_of_project_some env "parallel_review"
    "Starting parallel agent review (Engineering, Sourcing, Finance)" none none [] s p hu hproj
  have hcore : (parallelReview env s).uncaught.isSome ∧
      (parallelReview env s).flowError = none ∧
      statusesOf (parallelReview env s) = statusesOf s ∧
      storeStatus (parallelReview env s) = storeStatus s := by
    unfold parallelReview
    simp only [hu, hf, Option.isSome_none, Bool.false_eq_true, if_false]
    split
    · rename_i hu1
      refine ⟨hu1, ?_, ?_, ?_⟩
      · rw [logStep_flowError, hf]
      · exact logStep_statusesOf _ _ _ _ _ _ _ hps
      · exact logStep_storeStatus _ _ _ _ _ _ _ hps
    · rename_i hu1
      rw [hlog.2]
      dsimp only
      have hie : (reviewFilter p.line_items).isEmpty = false := by
        cases hc : reviewFilter p.line_items with
        | nil => exact absurd hc hne
        | cons a t => rfl
      simp only [hie, Bool.false_eq_true, if_false, logStep_offers, logStep_marketIntelReport]
      split
      · rename_i engR srcR finR heng hsrc hfin
        exfalso
        rcases hfail with ⟨e, he⟩ | ⟨e, he⟩ | ⟨e, he⟩
        · rw [he] at heng
          exact Except.noConfusion heng
        · rw [he] at hsrc
          exact Except.noConfusion hsrc
        · rw [he] at hfin
          exact Except.noConfusion hfin
      all_goals
        refine ⟨by simp, ?_, ?_, ?_⟩
      all_goals try simp [logStep_flowError, hf]
      all_goals simp [statusesOf, storeStatus, hlog.2, hstore]
  refine ⟨hcore.1, hcore.2.1, hcore.2.2.1, hcore.2.2.2, ?_, ?_⟩
  · exact finalDecision_poison env _ hcore.1
  · exact complete_poison env _ hcore.1

/-- Concrete pre-review state for the C1 witness. -/
def C1proj : Project :=
  { project_id := "P1", status := "enriching"
    line_items := [{ mpn := "X1", status := .enriched }] }

/-- Concrete flow state for the C1 witness. -/
def C1st : FlowSt := { project := some C1proj, store := some C1proj }

/-- Concrete environment for the C1 witness: the engineering evaluator
raises. -/
def C1env : FlowEnv := { evalEng := fun _ _ _ => .error "engineering evaluator crashed" }

/-- Witness for the amended C1 at a concrete raising evaluator. -/
theorem C1_evaluator_exception_leaves_error_unset_witness :
    (parallelReview C1env C1st).uncaught.isSome ∧
    (parallelReview C1env C1st).flowError = none ∧
    statusesOf (parallelReview C1env C1st) = statusesOf C1st ∧
    storeStatus (parallelReview C1env C1st) = storeStatus C1st ∧
    finalDecision C1env (parallelReview C1env C1st) = parallelReview C1env C1st ∧
    complete C1env (parallelReview C1env C1st) = parallelReview C1env C1st :=
  C1_evaluator_exception_leaves_error_unset C1env C1st C1proj rfl rfl rfl rfl
    (by decide) (Or.inl ⟨"engineering evaluator crashed", rfl⟩)

/-- Whole-run environment for the C1 counterexample. -/
def C1runEnv : FlowEnv :=
  { bomFile := .ok [[("MPN", "X1"), ("Quantity", "2")]]
    evalEng := fun _ _ _ => .error "engineering evaluator crashed" }

/-- C1 counterexample: in a run where the engineering evaluator raises
during parallel review, the flow error field remains unset (not
non-empty), the stored project status remains the enriching value rather
than becoming failed, and the single item stays ENRICHED; the claim that
such a run sets a non-empty error and a failed status is false on the
code. -/
theorem C1_counterexample :
    (runFlow C1runEnv).flowError = none ∧
    (runFlow C1runEnv).uncaught = some "engineering evaluator crashed" ∧
    storeStatus (runFlow C1runEnv) = some "enriching" ∧
    statusesOf (runFlow C1runEnv) = some [LineItemStatus.enriched] :=
  ⟨rfl, rfl, rfl, rfl⟩

/-- Relation between an item before and after the final-decision verdict
loop: either it is untouched, or it was pending final decision, a verdict
for its MPN existed, and the verdict was applied. -/
def decideRel (report : FinalDecisionReport) (a b : BOMLineItem) : Prop :=
  b = a ∨ (a.status = LineItemStatus.pendingFinalDecision ∧
    ∃ v, verdictLookup report.verdicts a.mpn = some v ∧ b = applyVerdict report v a)

theorem decideRel_refl (report : FinalDecisionReport) (a : BOMLineItem) :
    decideRel report a a := Or.inl rfl

theorem forall₂_decideRel_refl (report : FinalDecisionReport) (l : List BOMLineItem) :
    List.Forall₂ (decideRel report) l l :=
  List.forall₂_same.mpr (fun a _ => decideRel_refl report a)

theorem decideLoop_flowError (env : FlowEnv) (report : FinalDecisionReport) :
    ∀ (rest pre : List BOMLineItem) (s : FlowSt),
      (decideLoop env report pre rest s).flowError = s.flowError := by
  intro rest
  induction rest with
  | nil => intro pre s; rfl
  | cons it rest2 ih =>
    intro pre s
    unfold decideLoop
    by_cases hu : s.uncaught.isSome
    · simp [hu]
    · simp only [hu, if_false, Bool.false_eq_true]
      by_cases hst : it.status = LineItemStatus.pendingFinalDecision
      · simp only [hst, if_true, if_pos]
        cases hv : verdictLookup report.verdicts it.mpn with
        | none => simp [hv, ih]
        | some v =>
          simp only [hv]
          rw [ih, logStep_flowError, withProject_flowError]
      · simp [hst, ih]

theorem decideLoop_uncaught (env : FlowEnv) (report : FinalDecisionReport)
    (honstep : env.onStep = none) :
    ∀ (rest pre : List BOMLineItem) (s : FlowSt),
      s.uncaught = none → (decideLoop env report pre rest s).uncaught = none := by
  intro rest
  induction rest with
  | nil => intro pre s hu; exact hu
  | cons it rest2 ih =>
    intro pre s hu
    unfold decideLoop
    simp only [hu, Option.isSome_none, Bool.false_eq_true, if_false]
    by_cases hst : it.status = LineItemStatus.pendingFinalDecision
    · simp only [hst, if_true, if_pos]
      cases hv : verdictLookup report.verdicts it.mpn with
      | none => exact ih _ _ hu
      | some v =>
        simp only [hv]
        refine ih _ _ ?_
        rw [logStep_uncaught_of_onStep_none _ _ _ _ _ _ _ honstep, withProject_uncaught]
        exact hu
    · simp only [hst, if_false]
      exact ih _ _ hu

theorem decideLoop_evolve (env : FlowEnv) (report : FinalDecisionReport) :
    ∀ (rest pre : List BOMLineItem) (s : FlowSt) (q : Project),
      s.project = some q → q.line_items = pre ++ rest →
      ∃ q2 rest2, (decideLoop env report pre rest s).project = some q2 ∧
        q2.line_items = pre ++ rest2 ∧
        List.Forall₂ (decideRel report) rest rest2 ∧
        ((decideLoop env report pre rest s).store = s.store ∨
          ∃ q3 rest3, (decideLoop env report pre rest s).store = some q3 ∧
            q3.line_items = pre ++ rest3 ∧ List.Forall₂ (decideRel report) rest rest3) := by
  intro rest
  induction rest with
  | nil =>
    intro pre s q hq hitems
    exact ⟨q, [], hq, hitems, List.Forall₂.nil, Or.inl rfl⟩
  | cons it rest2 ih =>
    intro pre s q hq hitems
    by_cases hu : s.uncaught.isSome
    · have hdl : decideLoop env report pre (it :: rest2) s = s := by
        unfold decideLoop
        simp [hu]
      rw [hdl]
      exact ⟨q, it :: rest2, hq, hitems, forall₂_decideRel_refl report _, Or.inl rfl⟩
    · unfold decideLoop
      simp only [hu, if_false, Bool.false_eq_true]
      by_cases hst : it.status = LineItemStatus.pendingFinalDecision
      · simp only [hst, if_true, if_pos]
        cases hv : verdictLookup report.verdicts it.mpn with
        | none =>
          obtain ⟨q2, rest2', hproj, hitems2, hrel, hst2⟩ :=
            ih (pre ++ [it]) s q hq (by simpa [List.append_assoc] using hitems)
          refine ⟨q2, it :: rest2', hproj, by simpa [List.append_assoc] using hitems2,
            List.Forall₂.cons (decideRel_refl report it) hrel, ?_⟩
          rcases hst2 with h | ⟨q3, rest3, hs3, hi3, hr3⟩
          · exact Or.inl h
          · exact Or.inr ⟨q3, it :: rest3, hs3, by simpa [List.append_assoc] using hi3,
              List.Forall₂.cons (decideRel_refl report it) hr3⟩
        | some v =>
          simp only [hv]
          have hwp : (withProject s
              (fun p => { p with line_items := pre ++ applyVerdict report v it :: rest2 })).project
              = some { q with line_items := pre ++ applyVerdict report v it :: rest2 } := by
            unfold withProject
            rw [hq]
          have hwpu : (withProject s
              (fun p => { p with line_items := pre ++ applyVerdict report v it :: rest2 })).uncaught
              = none := by
            rw [withProject_uncaught]
            simpa using hu
          have hlog := logStep_of_project_some env "final_decision" (verdictMessage it v)
            (some "FinalDecisionAgent") (some v.resolution_rationale) []
            (withProject s (fun p => { p with line_items := pre ++ applyVerdict report v it :: rest2 }))
            { q with line_items := pre ++ applyVerdict report v it :: rest2 } hwpu hwp
          obtain ⟨q2, rest2', hproj, hitems2, hrel, hst2⟩ :=
            ih (pre ++ [applyVerdict report v it])
              (logStep env "final_decision" (verdictMessage it v)
                (some "FinalDecisionAgent") (some v.resolution_rationale) []
                (withProject s (fun p => { p with line_items := pre ++ applyVerdict report v it :: rest2 })))
              _ hlog.1 (by simp [List.append_assoc])
          have hhead : decideRel report it (applyVerdict report v it) :=
            Or.inr ⟨hst, v, hv, rfl⟩
          refine ⟨q2, applyVerdict report v it :: rest2', hproj,
            by simpa [List.append_assoc] using hitems2,
            List.Forall₂.cons hhead hrel, ?_⟩
          rcases hst2 with h | ⟨q3, rest3, hs3, hi3, hr3⟩
          · rw [h, hlog.2]
            exact Or.inr ⟨_, applyVerdict report v it :: rest2, rfl, rfl,
              List.Forall₂.cons hhead (forall₂_decideRel_refl report _)⟩
          · exact Or.inr ⟨q3, applyVerdict report v it :: rest3, hs3,
              by simpa [List.append_assoc] using hi3,
              List.Forall₂.cons hhead hr3⟩
      · simp only [hst, if_false]
        obtain ⟨q2, rest2', hproj, hitems2, hrel, hst2⟩ :=
          ih (pre ++ [it]) s q hq (by simpa [List.append_assoc] using hitems)
        refine ⟨q2, it :: rest2', hproj, by simpa [List.append_assoc] using hitems2,
          List.Forall₂.cons (decideRel_refl report it) hrel, ?_⟩
        rcases hst2 with h | ⟨q3, rest3, hs3, hi3, hr3⟩
        · exact Or.inl h
        · exact Or.inr ⟨q3, it :: rest3, hs3, by simpa [List.append_assoc] using hi3,
            List.Forall₂.cons (decideRel_refl report it) hr3⟩

theorem verdictLookup_eq_none (vs : List PartVerdict) (x : String)
    (h : ∀ v ∈ vs, v.mpn ≠ x) : verdictLookup vs x = none := by
  unfold verdictLookup
  rw [List.find?_eq_none]
  intro v hv
  simp only [beq_iff_eq]
  exact h v (List.mem_reverse.mp hv)

theorem buildFinalReport_verdicts (reportId : String) (items : List BOMLineItem)
    (ctx : ProjectContext) (out : LLMFinalDecisionOutput) :
    (buildFinalReport reportId items ctx out).verdicts = out.verdicts.map convertVerdict := rfl

theorem persistProject_of_project_some (s : FlowSt) (q : Project) (h : s.project = some q) :
    (persistProject s).project = some q ∧ (persistProject s).store = some q ∧
    (persistProject s).uncaught = s.uncaught ∧ (persistProject s).flowError = s.flowError := by
  unfold persistProject
  rw [h]
  dsimp only
  exact ⟨rfl, rfl, rfl, rfl⟩

/-- C2 amended: when the synthesizer report lacks a verdict for a
submitted MPN, the final-decision stage does not fail: the run records no
error and is not poisoned, and every pending item whose MPN has no verdict
in the report is silently left unchanged (still PENDING_FINAL_DECISION,
with no final decision attached); verdicts for MPNs outside the batch are
simply never looked up. -/
theorem C2_missing_verdict_silently_skipped
    (env : FlowEnv) (s : FlowSt) (p : Project)
    (engR srcR finR : SpecialistAgentResult) (out : LLMFinalDecisionOutput)
    (hu : s.uncaught = none) (hf : s.flowError = none)
    (hps : s.project = s.store) (hstore : s.store = some p)
    (honstep : env.onStep = none)
    (heng : s.engineeringResult = some engR) (hsrc : s.sourcingResult = some srcR)
    (hfin : s.financeResult = some finR)
    (hllm : env.synthesizeLLM (pfdFilter p.line_items) p.context engR srcR finR = .ok out)
    (hne : pfdFilter p.line_items ≠ []) :
    (finalDecision env s).flowError = none ∧
    (finalDecision env s).uncaught = none ∧
    ∃ q, (finalDecision env s).store = some q ∧
      q.line_items.length = p.line_items.length ∧
      ∀ (i : Nat) (hi : i < p.line_items.length) (hi2 : i < q.line_items.length),
        (p.line_items.get ⟨i, hi⟩).status = LineItemStatus.pendingFinalDecision →
        (∀ lv ∈ out.verdicts, lv.mpn ≠ (p.line_items.get ⟨i, hi⟩).mpn) →
        q.line_items.get ⟨i, hi2⟩ = p.line_items.get ⟨i, hi⟩ := by
  have hproj : s.project = some p := hps.trans hstore
  have hlog := logStep_of_project_some env "final_decision"
    "Starting final decision synthesis" none none [] s p hu hproj
  have hs1u : (logStep env "final_decision"
      "Starting final decision synthesis" none none [] s).uncaught = none := by
    rw [logStep_uncaught_of_onStep_none _ _ _ _ _ _ _ honstep]
    exact hu
  have hs1f : (logStep env "final_decision"
      "Starting final decision synthesis" none none [] s).flowError = none := by
    rw [logStep_flowError]
    exact hf
  have hie : (pfdFilter p.line_items).isEmpty = false := by
    cases hc : pfdFilter p.line_items with
    | nil => exact absurd hc hne
    | cons a t => rfl
  have hmk : makeFinalDecisions env.reportId (pfdFilter p.line_items) p.context engR srcR finR
      (env.synthesizeLLM (pfdFilter p.line_items) p.context engR srcR finR)
      = .ok (buildFinalReport env.reportId (pfdFilter p.line_items) p.context out) := by
    unfold makeFinalDecisions
    rw [hllm]
    simp [hie]
  suffices H : ∀ (report : FinalDecisionReport) (t : FlowSt) (items0 : List BOMLineItem)
      (msg3 : String),
      report.verdicts = out.verdicts.map convertVerdict →
      t.uncaught = none → t.flowError = none →
      t.project.map Project.line_items = some items0 →
      ∀ r : FlowSt, r =
        (if (decideLoop env report [] items0
              (logStep env "final_decision" "Final decision LLM call completed" none none [] t)).uncaught.isSome
         then decideLoop env report [] items0
              (logStep env "final_decision" "Final decision LLM call completed" none none [] t)
         else logStep env "final_decision" msg3 none none []
              (persistProject (decideLoop env report [] items0
                (logStep env "final_decision" "Final decision LLM call completed" none none [] t)))) →
      r.flowError = none ∧ r.uncaught = none ∧
      ∃ q, r.store = some q ∧
        q.line_items.length = items0.length ∧
        ∀ (i : Nat) (hi : i < items0.length) (hi2 : i < q.line_items.length),
          (items0.get ⟨i, hi⟩).status = LineItemStatus.pendingFinalDecision →
          (∀ lv ∈ out.verdicts, lv.mpn ≠ (items0.get ⟨i, hi⟩).mpn) →
          q.line_items.get ⟨i, hi2⟩ = items0.get ⟨i, hi⟩ by
    unfold finalDecision
    simp only [hu, hf, Option.isSome_none, Bool.false_eq_true, if_false, hs1u]
    rw [hlog.2]
    dsimp only
    simp only [hie, Bool.false_eq_true, if_false,
      logStep_engineeringResult, logStep_sourcingResult, logStep_financeResult,
      heng, hsrc, hfin]
    rw [hmk]
    dsimp only
    refine H (buildFinalReport env.reportId (pfdFilter p.line_items) p.context out)
      _ _ _ rfl ?_ ?_ ?_ _ rfl
    · simpa using hs1u
    · simpa using hs1f
    · rfl
  intro report t items0 msg3 hverd htu htf hmap r hr
  subst hr
  cases hq0 : t.project with
  | none =>
    rw [hq0] at hmap
    exact absurd hmap (by simp)
  | some q0 =>
    rw [hq0] at hmap
    simp only [Option.map_some'] at hmap
    injection hmap with hitems0
    have hs4 := logStep_of_project_some env "final_decision"
      "Final decision LLM call completed" none none [] t q0 htu hq0
    have hs4u : (logStep env "final_decision"
        "Final decision LLM call completed" none none [] t).uncaught = none := by
      rw [logStep_uncaught_of_onStep_none _ _ _ _ _ _ _ honstep]
      exact htu
    obtain ⟨q2, rest2, hq2, hitems2, hrel, hst2⟩ := decideLoop_evolve env report items0 []
      (logStep env "final_decision" "Final decision LLM call completed" none none [] t)
      _ hs4.1 (by simp [hitems0])
    have hs5u := decideLoop_uncaught env report honstep items0 [] _ hs4u
    have hs5f : (decideLoop env report [] items0
        (logStep env "final_decision" "Final decision LLM call completed" none none [] t)).flowError
        = none := by
      rw [decideLoop_flowError, logStep_flowError]
      exact htf
    simp only [hs5u, Option.isSome_none, Bool.false_eq_true, if_false]
    have hpp := persistProject_of_project_some _ _ hq2
    have hlast := logStep_of_project_some env "final_decision" msg3 none none []
      (persistProject (decideLoop env report [] items0
        (logStep env "final_decision" "Final decision LLM call completed" none none [] t))) q2
      (by rw [hpp.2.2.1]; exact hs5u) hpp.1
    refine ⟨?_, ?_, ?_⟩
    · rw [logStep_flowError, persistProject_flowError, hs5f]
    · rw [logStep_uncaught_of_onStep_none _ _ _ _ _ _ _ honstep, hpp.2.2.1]
      exact hs5u
    · refine ⟨_, hlast.2, ?_, ?_⟩
      · show ({ q2 with trace := q2.trace ++ [⟨"final_decision", none, msg3, none, []⟩] }
          : Project).line_items.length = items0.length
        have : q2.line_items = rest2 := by simpa using hitems2
        simp only [this]
        exact (List.forall₂_iff_get.mp hrel).1.symm
      · intro i hi hi2 hpfd hnov
        have hlen := (List.forall₂_iff_get.mp hrel).1
        have hq2eq : ({ q2 with trace := q2.trace ++ [⟨"final_decision", none, msg3, none, []⟩] }
            : Project).line_items = rest2 := by simpa using hitems2
        have hi2' : i < rest2.length := by
          rw [← hlen]
          exact hi
        have hrelget := (List.forall₂_iff_get.mp hrel).2 i hi hi2'
        have hq2get : ({ q2 with trace := q2.trace ++ [⟨"final_decision", none, msg3, none, []⟩] }
            : Project).line_items.get ⟨i, hi2⟩ = rest2.get ⟨i, hi2'⟩ :=
          List.get_of_eq hq2eq _
        rcases hrelget with heq | ⟨hst3, v, hlook, happ⟩
        · rw [hq2get, heq]
        · exfalso
          have hnone : verdictLookup report.verdicts (items0.get ⟨i, hi⟩).mpn = none := by
            apply verdictLookup_eq_none
            intro v2 hv2
            rw [hverd] at hv2
            obtain ⟨lv, hlv, rfl⟩ := List.mem_map.mp hv2
            exact hnov lv hlv
          rw [hnone] at hlook
          exact Option.noConfusion hlook

/-- Concrete stored project with one pending item for the C2 witness. -/
def C2proj : Project :=
  { project_id := "P2", status := "agent_review"
    line_items := [{ mpn := "X1", status := .pendingFinalDecision }] }

/-- Concrete specialist result for the C2 witness. -/
def C2res : SpecialistAgentResult := { agent_name := "A" }

/-- Concrete synthesizer output with no verdict at all for the C2
witness. -/
def C2out : LLMFinalDecisionOutput := { executive_summary := "s", verdicts := [] }

/-- Concrete flow state for the C2 witness. -/
def C2st : FlowSt :=
  { project := some C2proj, store := some C2proj
    engineeringResult := some C2res, sourcingResult := some C2res
    financeResult := some C2res }

/-- Concrete environment for the C2 witness. -/
def C2env : FlowEnv := { synthesizeLLM := fun _ _ _ _ _ => .ok C2out }

/-- Witness for the amended C2 at a concrete verdict-free report. -/
theorem C2_missing_verdict_silently_skipped_witness :
    (finalDecision C2env C2st).flowError = none ∧
    (finalDecision C2env C2st).uncaught = none ∧
    ∃ q, (finalDecision C2env C2st).store = some q ∧
      q.line_items.length = C2proj.line_items.length ∧
      ∀ (i : Nat) (hi : i < C2proj.line_items.length) (hi2 : i < q.line_items.length),
        (C2proj.line_items.get ⟨i, hi⟩).status = LineItemStatus.pendingFinalDecision →
        (∀ lv ∈ C2out.verdicts, lv.mpn ≠ (C2proj.line_items.get ⟨i, hi⟩).mpn) →
        q.line_items.get ⟨i, hi2⟩ = C2proj.line_items.get ⟨i, hi⟩ :=
  C2_missing_verdict_silently_skipped C2env C2st C2proj C2res C2res C2res C2out
    rfl rfl rfl rfl rfl rfl rfl rfl rfl (by decide)

/-- Whole-run environment for the C2 counterexample: the synthesizer
returns a structurally valid report with no verdict for the submitted
MPN. -/
def C2runEnv : FlowEnv :=
  { bomFile := .ok [[("MPN", "X1")]]
    synthesizeLLM := fun _ _ _ _ _ => .ok { executive_summary := "s", verdicts := [] } }

/-- C2 counterexample: a run whose synthesizer omits the verdict for the
only submitted MPN does not fail: no error is recorded, the project
completes, and the item is silently left at PENDING_FINAL_DECISION; the
claim that such a run fails with the error recorded in project state is
false on the code. -/
theorem C2_counterexample :
    (runFlow C2runEnv).flowError = none ∧
    (runFlow C2runEnv).uncaught = none ∧
    storeStatus (runFlow C2runEnv) = some "complete" ∧
    statusesOf (runFlow C2runEnv) = some [LineItemStatus.pendingFinalDecision] ∧
    (runFlow C2runEnv).finalReport.map FinalDecisionReport.verdicts = some [] :=
  ⟨rfl, rfl, rfl, rfl, rfl⟩

theorem intake_ok_run (env : FlowEnv) (c : ProjectContext) (items : List BOMLineItem)
    (honstep : env.onStep = none)
    (hctx : env.intakeCtxResult = .ok c)
    (hbom : env.bomFile.bind parseBom = .ok items) :
    ∃ p, (intake env initSt).store = some p ∧ p.line_items = items ∧
      (intake env initSt).project = (intake env initSt).store ∧
      (intake env initSt).uncaught = none ∧
      (intake env initSt).flowError = none ∧
      (intake env initSt).finalReport = none ∧
      (intake env initSt).engineeringResult = none ∧
      (intake env initSt).sourcingResult = none ∧
      (intake env initSt).financeResult = none := by
  unfold intake initSt
  simp [logStep, intakeErrorHandler, honstep, hctx, hbom]

theorem enrich_some_run (env : FlowEnv) (s : FlowSt) (p : Project)
    (honstep : env.onStep = none)
    (hu : s.uncaught = none) (hf : s.flowError = none)
    (hps : s.project = s.store) (hstore : s.store = some p) :
    ∃ p2, (enrich env s).store = some p2 ∧
      p2.line_items = p.line_items.map (fun it => { it with status := LineItemStatus.enriched }) ∧
      p2.status = "enriching" ∧
      (enrich env s).project = (enrich env s).store ∧
      (enrich env s).uncaught = none ∧
      (enrich env s).flowError = none ∧
      (enrich env s).finalReport = s.finalReport := by
  have hproj : s.project = some p := hps.trans hstore
  have hlog := logStep_of_project_some env "enrich" "Starting enrichment" none none [] s p hu hproj
  have hs1u : (logStep env "enrich" "Starting enrichment" none none [] s).uncaught = none := by
    rw [logStep_uncaught_of_onStep_none _ _ _ _ _ _ _ honstep]
    exact hu
  have hs1f := logStep_flowError env "enrich" "Starting enrichment" none none [] s
  have hs1r := logStep_finalReport env "enrich" "Starting enrichment" none none [] s
  unfold enrich
  simp only [hu, hf, Option.isSome_none, Bool.false_eq_true, if_false]
  generalize hgen : logStep env "enrich" "Starting enrichment" none none [] s = s1x
  rw [hgen] at hs1u hs1f hs1r hlog
  rw [hlog.2]
  try dsimp only
  simp only [withProject, persistProject]
  try dsimp only
  simp only [logStep, hs1u, honstep, Option.isSome_none, Bool.false_eq_true, if_false]
  try dsimp only
  refine ⟨_, rfl, by simp, ?_, ?_, ?_, ?_⟩ <;>
    simp [hs1u, hs1f, hf, hs1r]

theorem gather_flowError (env : FlowEnv) (s : FlowSt) :
    (gatherMarketIntel env s).flowError = s.flowError := by
  simp only [gatherMarketIntel]
  repeat' split
  all_goals simp [logStep_flowError, apply_ite FlowSt.flowError]

theorem gather_finalReport (env : FlowEnv) (s : FlowSt) :
    (gatherMarketIntel env s).finalReport = s.finalReport := by
  simp only [gatherMarketIntel]
  repeat' split
  all_goals simp [logStep_finalReport, apply_ite FlowSt.finalReport]

theorem gather_engineeringResult (env : FlowEnv) (s : FlowSt) :
    (gatherMarketIntel env s).engineeringResult = s.engineeringResult := by
  simp only [gatherMarketIntel]
  repeat' split
  all_goals simp [logStep_engineeringResult, apply_ite FlowSt.engineeringResult]

theorem gather_sourcingResult (env : FlowEnv) (s : FlowSt) :
    (gatherMarketIntel env s).sourcingResult = s.sourcingResult := by
  simp only [gatherMarketIntel]
  repeat' split
  all_goals simp [logStep_sourcingResult, apply_ite FlowSt.sourcingResult]

theorem gather_financeResult (env : FlowEnv) (s : FlowSt) :
    (gatherMarketIntel env s).financeResult = s.financeResult := by
  simp only [gatherMarketIntel]
  repeat' split
  all_goals simp [logStep_financeResult, apply_ite FlowSt.financeResult]

theorem gather_offers (env : FlowEnv) (s : FlowSt) :
    (gatherMarketIntel env s).offers = s.offers := by
  simp only [gatherMarketIntel]
  repeat' split
  all_goals simp [logStep_offers, apply_ite FlowSt.offers]

theorem logStep_store_lineItems_coh (env : FlowEnv) (n m : String) (a r : Option String)
    (f : List String) (t : FlowSt) (h : t.project = t.store) :
    (logStep env n m a r f t).store.map Project.line_items
      = t.store.map Project.line_items := by
  rcases logStep_store_lineItems env n m a r f t with hd | hd
  · exact hd
  · rw [hd, h]

theorem logStep_coh_frame (env : FlowEnv) (n m : String) (a r : Option String)
    (f : List String) (t : FlowSt) (h : t.project = t.store) :
    (logStep env n m a r f t).project = (logStep env n m a r f t).store ∧
    (logStep env n m a r f t).store.map Project.line_items = t.store.map Project.line_items ∧
    storeStatus (logStep env n m a r f t) = storeStatus t :=
  ⟨logStep_proj_eq_store env n m a r f t h,
   logStep_store_lineItems_coh env n m a r f t h,
   logStep_storeStatus env n m a r f t h⟩

theorem gather_coh_frame (env : FlowEnv) (s : FlowSt) (hps : s.project = s.store) :
    (gatherMarketIntel env s).project = (gatherMarketIntel env s).store ∧
    (gatherMarketIntel env s).store.map Project.line_items = s.store.map Project.line_items ∧
    storeStatus (gatherMarketIntel env s) = storeStatus s := by
  simp only [gatherMarketIntel]
  split
  · exact ⟨hps, rfl, rfl⟩
  split
  · exact ⟨hps, rfl, rfl⟩
  split
  · exact logStep_coh_frame _ _ _ _ _ _ _ hps
  split
  · exact logStep_coh_frame _ _ _ _ _ _ _ hps
  split
  · rename_i g hg hu1 hnone
    have h1 := logStep_coh_frame env "market_intel"
      "Starting market intelligence gathering via Apify" none none [] s hps
    exact ⟨h1.1, h1.2.1, by simpa [storeStatus] using h1.2.2⟩
  rename_i g hg hu1 p hp
  have h1 := logStep_coh_frame env "market_intel"
    "Starting market intelligence gathering via Apify" none none [] s hps
  have h2base : ∀ mi : Option MarketIntelReport,
      ({ logStep env "market_intel" "Starting market intelligence gathering via Apify" none none [] s with
         project := some p, marketIntelReport := mi } : FlowSt).project
      = ({ logStep env "market_intel" "Starting market intelligence gathering via Apify" none none [] s with
         project := some p, marketIntelReport := mi } : FlowSt).store := by
    intro mi
    simpa using hp.symm
  split
  · rename_i e he
    have h2err : ({ logStep env "market_intel"
          "Starting market intelligence gathering via Apify" none none [] s with
        project := some p } : FlowSt).project
        = ({ logStep env "market_intel"
          "Starting market intelligence gathering via Apify" none none [] s with
        project := some p } : FlowSt).store := by
      simpa using hp.symm
    have h3 := logStep_coh_frame env "market_intel" ("Market intel gathering failed: " ++ e)
      (some "MarketIntelAgent") none [] _ h2err
    refine ⟨h3.1, ?_, ?_⟩
    · rw [h3.2.1]
      simpa using h1.2.1
    · rw [h3.2.2]
      simpa [storeStatus] using h1.2.2
  rename_i r hr
  split
  · have h3 := logStep_coh_frame env "market_intel"
      "No market intelligence gathered (Apify may not be configured)"
      (some "MarketIntelAgent") none [] _ (h2base (some r))
    refine ⟨h3.1, ?_, ?_⟩
    · rw [h3.2.1]
      simpa using h1.2.1
    · rw [h3.2.2]
      simpa [storeStatus] using h1.2.2
  have h4 := logStep_coh_frame env "market_intel"
    ("Gathered " ++ toString r.items.length ++ " intel items from "
      ++ toString r.total_sources_scraped ++ " sources")
    (some "MarketIntelAgent") none [] _ (h2base (some r))
  have h4i : (logStep env "market_intel"
      ("Gathered " ++ toString r.items.length ++ " intel items from "
        ++ toString r.total_sources_scraped ++ " sources")
      (some "MarketIntelAgent") none []
      ({ logStep env "market_intel" "Starting market intelligence gathering via Apify" none none [] s with
         project := some p, marketIntelReport := some r } : FlowSt)).store.map Project.line_items
      = s.store.map Project.line_items := by
    rw [h4.2.1]
    simpa using h1.2.1
  have h4s : storeStatus (logStep env "market_intel"
      ("Gathered " ++ toString r.items.length ++ " intel items from "
        ++ toString r.total_sources_scraped ++ " sources")
      (some "MarketIntelAgent") none []
      ({ logStep env "market_intel" "Starting market intelligence gathering via Apify" none none [] s with
         project := some p, marketIntelReport := some r } : FlowSt)) = storeStatus s := by
    rw [h4.2.2]
    simpa [storeStatus] using h1.2.2
  by_cases hrisks : r.supply_chain_risks.isEmpty
  · simp only [hrisks, if_true]
    split
    · exact ⟨h4.1, h4i, h4s⟩
    · have h5 := logStep_coh_frame env "market_intel"
        ("Shortage alerts: " ++ toString r.shortage_alerts.length)
        (some "MarketIntelAgent") (some (bulletJoin (r.shortage_alerts.take 5))) [] _ h4.1
      exact ⟨h5.1, h5.2.1.trans h4i, h5.2.2.trans h4s⟩
  · simp only [hrisks, if_false, Bool.false_eq_true]
    have h5 := logStep_coh_frame env "market_intel"
      ("Supply chain risks identified: " ++ toString r.supply_chain_risks.length)
      (some "MarketIntelAgent") (some (bulletJoin (r.supply_chain_risks.take 5))) [] _ h4.1
    have h5i := h5.2.1.trans h4i
    have h5s := h5.2.2.trans h4s
    split
    · exact ⟨h5.1, h5i, h5s⟩
    · have h6 := logStep_coh_frame env "market_intel"
        ("Shortage alerts: " ++ toString r.shortage_alerts.length)
        (some "MarketIntelAgent") (some (bulletJoin (r.shortage_alerts.take 5))) [] _ h5.1
      exact ⟨h6.1, h6.2.1.trans h5i, h6.2.2.trans h5s⟩

theorem gather_uncaught (env : FlowEnv) (s : FlowSt) (p : Project)
    (honstep : env.onStep = none) (hstore : s.store = some p) :
    (gatherMarketIntel env s).uncaught = s.uncaught := by
  have hLu : ∀ n m a r f (t : FlowSt), (logStep env n m a r f t).uncaught = t.uncaught :=
    fun n m a r f t => logStep_uncaught_of_onStep_none env n m a r f t honstep
  simp only [gatherMarketIntel]
  split
  · rfl
  split
  · rfl
  split
  · exact hLu _ _ _ _ _ _
  split
  · exact hLu _ _ _ _ _ _
  · rename_i g hg hu1
    have hsome : (logStep env "market_intel"
        "Starting market intelligence gathering via Apify" none none [] s).store.isSome :=
      logStep_store_isSome _ _ _ _ _ _ _ (by simp [hstore])
    split
    · rename_i hnone
      rw [hnone] at hsome
      simp at hsome
    · rename_i q hq
      split
      · rw [hLu]
        exact hLu _ _ _ _ _ _
      · rename_i r hr
        split
        · rw [hLu]
          exact hLu _ _ _ _ _ _
        · by_cases hrisks : r.supply_chain_risks.isEmpty <;>
            simp only [hrisks, if_true, if_false, Bool.false_eq_true] <;>
            split <;> simp only [hLu]

theorem parallelReview_empty_run (env : FlowEnv) (s : FlowSt) (p : Project)
    (honstep : env.onStep = none)
    (hu : s.uncaught = none) (hf : s.flowError = none)
    (hps : s.project = s.store) (hstore : s.store = some p)
    (hempty : reviewFilter p.line_items = []) :
    ∃ p2, (parallelReview env s).store = some p2 ∧
      p2.line_items = p.line_items ∧ p2.status = "agent_review" ∧
      (parallelReview env s).project = (parallelReview env s).store ∧
      (parallelReview env s).uncaught = none ∧
      (parallelReview env s).flowError = none ∧
      (parallelReview env s).finalReport = s.finalReport := by
  have hproj : s.project = some p := hps.trans hstore
  have hlog := logStep_of_project_some env "parallel_review"
    "Starting parallel agent review (Engineering, Sourcing, Finance)" none none [] s p hu hproj
  have hs1u : (logStep env "parallel_review"
      "Starting parallel agent review (Engineering, Sourcing, Finance)" none none [] s).uncaught
      = none := by
    rw [logStep_uncaught_of_onStep_none _ _ _ _ _ _ _ honstep]
    exact hu
  have hs1f := logStep_flowError env "parallel_review"
    "Starting parallel agent review (Engineering, Sourcing, Finance)" none none [] s
  have hs1r := logStep_finalReport env "parallel_review"
    "Starting parallel agent review (Engineering, Sourcing, Finance)" none none [] s
  unfold parallelReview
  simp only [hu, hf, Option.isSome_none, Bool.false_eq_true, if_false]
  generalize hgen : logStep env "parallel_review"
    "Starting parallel agent review (Engineering, Sourcing, Finance)" none none [] s = s1x
  rw [hgen] at hs1u hs1f hs1r hlog
  rw [hlog.2]
  try dsimp only
  simp only [hs1u, Option.isSome_none, Bool.false_eq_true, if_false]
  have hrev : reviewFilter ({ p with trace := p.trace
      ++ [⟨"parallel_review", none,
          "Starting parallel agent review (Engineering, Sourcing, Finance)", none, []⟩] }
      : Project).line_items = reviewFilter p.line_items := rfl
  rw [hrev, hempty]
  try dsimp only
  simp only [logStep, hs1u, honstep, Option.isSome_none, Bool.false_eq_true, if_false]
  try dsimp only
  refine ⟨_, rfl, rfl, rfl, ?_, ?_, ?_, ?_⟩ <;>
    simp [hs1u, hs1f, hf, hs1r]

theorem finalDecision_empty_run (env : FlowEnv) (s : FlowSt) (p : Project)
    (honstep : env.onStep = none)
    (hu : s.uncaught = none) (hf : s.flowError = none)
    (hps : s.project = s.store) (hstore : s.store = some p)
    (hempty : pfdFilter p.line_items = []) :
    ∃ p2, (finalDecision env s).store = some p2 ∧
      p2.line_items = p.line_items ∧ p2.status = "final_decision" ∧
      (finalDecision env s).project = (finalDecision env s).store ∧
      (finalDecision env s).uncaught = none ∧
      (finalDecision env s).flowError = none ∧
      (finalDecision env s).finalReport = s.finalReport := by
  have hproj : s.project = some p := hps.trans hstore
  have hlog := logStep_of_project_some env "final_decision"
    "Starting final decision synthesis" none none [] s p hu hproj
  have hs1u : (logStep env "final_decision"
      "Starting final decision synthesis" none none [] s).uncaught = none := by
    rw [logStep_uncaught_of_onStep_none _ _ _ _ _ _ _ honstep]
    exact hu
  have hs1f := logStep_flowError env "final_decision"
    "Starting final decision synthesis" none none [] s
  have hs1r := logStep_finalReport env "final_decision"
    "Starting final decision synthesis" none none [] s
  unfold finalDecision
  simp only [hu, hf, Option.isSome_none, Bool.false_eq_true, if_false]
  generalize hgen : logStep env "final_decision"
    "Starting final decision synthesis" none none [] s = s1x
  rw [hgen] at hs1u hs1f hs1r hlog
  rw [hlog.2]
  try dsimp only
  simp only [hs1u, Option.isSome_none, Bool.false_eq_true, if_false]
  have hpfd : pfdFilter ({ p with trace := p.trace
      ++ [⟨"final_decision", none, "Starting final decision synthesis", none, []⟩] }
      : Project).line_items = pfdFilter p.line_items := rfl
  rw [hpfd, hempty]
  try dsimp only
  simp only [logStep, hs1u, honstep, Option.isSome_none, Bool.false_eq_true, if_false]
  try dsimp only
  refine ⟨_, rfl, rfl, rfl, ?_, ?_, ?_, ?_⟩ <;>
    simp [hs1u, hs1f, hf, hs1r]

theorem complete_run (env : FlowEnv) (s : FlowSt) (p : Project)
    (honstep : env.onStep = none)
    (hu : s.uncaught = none) (hf : s.flowError = none)
    (hstore : s.store = some p) :
    ∃ p2, (complete env s).store = some p2 ∧
      p2.line_items = p.line_items ∧ p2.status = "complete" ∧
      (complete env s).uncaught = none ∧
      (complete env s).flowError = none ∧
      (complete env s).finalReport = s.finalReport := by
  unfold complete
  simp only [hu, hf, Option.isSome_none, Bool.false_eq_true, if_false]
  rw [hstore]
  try dsimp only
  simp only [logStep, honstep, hu, Option.isSome_none, Bool.false_eq_true, if_false]
  try dsimp only
  refine ⟨_, rfl, rfl, rfl, ?_, ?_, ?_⟩ <;> simp [hu, hf]

/-- C8 amended: a run over a BOM with zero rows does not fail: every stage
runs, no error is recorded, nothing raises (quiet callback), and the
project reaches status complete with an empty item list; however no final
decision report is produced at all (final_decision returns early and
self.final_report stays unset), rather than a zero-verdict report. -/
theorem C8_empty_bom_completes_without_report (env : FlowEnv) (c : ProjectContext)
    (honstep : env.onStep = none)
    (hctx : env.intakeCtxResult = .ok c)
    (hbom : env.bomFile = .ok []) :
    (runFlow env).flowError = none ∧
    (runFlow env).uncaught = none ∧
    storeStatus (runFlow env) = some "complete" ∧
    statusesOf (runFlow env) = some [] ∧
    (runFlow env).finalReport = none := by
  have hbom2 : env.bomFile.bind parseBom = .ok [] := by
    rw [hbom]
    rfl
  obtain ⟨p1, h1store, h1items, h1coh, h1u, h1f, h1rep, h1eng, h1src, h1fin⟩ :=
    intake_ok_run env c [] honstep hctx hbom2
  obtain ⟨p2, h2store, h2items, h2status, h2coh, h2u, h2f, h2rep⟩ :=
    enrich_some_run env (intake env initSt) p1 honstep h1u h1f h1coh h1store
  have h3coh := gather_coh_frame env (enrich env (intake env initSt)) h2coh
  have h3u : (gatherMarketIntel env (enrich env (intake env initSt))).uncaught = none :=
    (gather_uncaught env _ p2 honstep h2store).trans h2u
  have h3f : (gatherMarketIntel env (enrich env (intake env initSt))).flowError = none :=
    (gather_flowError env _).trans h2f
  have h3rep : (gatherMarketIntel env (enrich env (intake env initSt))).finalReport = none :=
    (gather_finalReport env _).trans (h2rep.trans h1rep)
  have h3map : (gatherMarketIntel env (enrich env (intake env initSt))).store.map Project.line_items
      = some p2.line_items := by
    rw [h3coh.2.1, h2store]
    rfl
  cases h3store : (gatherMarketIntel env (enrich env (intake env initSt))).store with
  | none =>
    rw [h3store] at h3map
    exact absurd h3map (by simp)
  | some p3 =>
    rw [h3store] at h3map
    simp only [Option.map_some'] at h3map
    injection h3map with h3items
    have hp3nil : p3.line_items = [] := by
      rw [h3items, h2items, h1items]
      rfl
    obtain ⟨p4, h4store, h4items, h4status, h4coh, h4u, h4f, h4rep⟩ :=
      parallelReview_empty_run env (gatherMarketIntel env (enrich env (intake env initSt))) p3
        honstep h3u h3f h3coh.1 h3store (by rw [hp3nil]; rfl)
    have hp4nil : p4.line_items = [] := h4items.trans hp3nil
    obtain ⟨p5, h5store, h5items, h5status, h5coh, h5u, h5f, h5rep⟩ :=
      finalDecision_empty_run env _ p4 honstep h4u h4f h4coh h4store (by rw [hp4nil]; rfl)
    have hp5nil : p5.line_items = [] := h5items.trans hp4nil
    obtain ⟨p6, h6store, h6items, h6status, h6u, h6f, h6rep⟩ :=
      complete_run env _ p5 honstep h5u h5f h5store
    have hrun : runFlow env
        = complete env (finalDecision env (parallelReview env
            (gatherMarketIntel env (enrich env (intake env initSt))))) := rfl
    rw [hrun]
    refine ⟨h6f, h6u, ?_, ?_, ?_⟩
    · rw [storeStatus, h6store]
      simp [h6status]
    · rw [statusesOf, h6store]
      simp [h6items.trans hp5nil]
    · rw [h6rep, h5rep, h4rep, h3rep]

/-- Concrete zero-row environment for C8. -/
def C8env : FlowEnv := { bomFile := .ok [] }

/-- C8 counterexample: on a zero-row BOM the run completes, but no final
report object is produced at all (self.final_report stays None because
final_decision returns before calling the synthesizer), so the claim that
the produced final report has zero verdicts and zero total_spend is false:
there is no produced report. -/
theorem C8_counterexample :
    (runFlow C8env).finalReport = none ∧
    storeStatus (runFlow C8env) = some "complete" ∧
    (runFlow C8env).flowError = none :=
  ⟨rfl, rfl, rfl⟩

/-- Witness for the amended C8 at a concrete zero-row environment. -/
theorem C8_empty_bom_completes_without_report_witness :
    (runFlow C8env).flowError = none ∧
    (runFlow C8env).uncaught = none ∧
    storeStatus (runFlow C8env) = some "complete" ∧
    statusesOf (runFlow C8env) = some [] ∧
    (runFlow C8env).finalReport = none :=
  C8_empty_bom_completes_without_report C8env {} rfl rfl rfl

theorem decideLoop_cb (env : FlowEnv) (report : FinalDecisionReport)
    (f : FlowTraceStep → Except String Unit) (hf : env.onStep = some f) :
    ∀ (rest pre : List BOMLineItem) (s : FlowSt),
      s.callbackLog = s.produced →
      (decideLoop env report pre rest s).callbackLog = (decideLoop env report pre rest s).produced := by
  intro rest
  induction rest with
  | nil => intro pre s h; exact h
  | cons it rest2 ih =>
    intro pre s h
    unfold decideLoop
    by_cases hu : s.uncaught.isSome
    · simp [hu, h]
    · simp only [hu, if_false, Bool.false_eq_true]
      by_cases hst : it.status = LineItemStatus.pendingFinalDecision
      · simp only [hst, if_true, if_pos]
        cases hv : verdictLookup report.verdicts it.mpn with
        | none => exact ih _ _ h
        | some v =>
          simp only [hv]
          refine ih _ _ ?_
          refine logStep_callback_sync env _ _ _ _ _ _ f hf ?_
          rw [withProject_callbackLog, withProject_produced]
          exact h
      · simp only [hst, if_false]
        exact ih _ _ h

theorem intake_cb (env : FlowEnv) (f : FlowTraceStep → Except String Unit)
    (hf : env.onStep = some f) (s : FlowSt) (h : s.callbackLog = s.produced) :
    (intake env s).callbackLog = (intake env s).produced := by
  have hL : ∀ n m a r fs (t : FlowSt), t.callbackLog = t.produced →
      (logStep env n m a r fs t).callbackLog = (logStep env n m a r fs t).produced :=
    fun n m a r fs t ht => logStep_callback_sync env n m a r fs t f hf ht
  simp only [intake, intakeErrorHandler]
  repeat' split
  all_goals
    repeat first
      | exact h
      | apply hL
      | dsimp only
      | split

theorem enrich_cb (env : FlowEnv) (f : FlowTraceStep → Except String Unit)
    (hf : env.onStep = some f) (s : FlowSt) (h : s.callbackLog = s.produced) :
    (enrich env s).callbackLog = (enrich env s).produced := by
  have hL : ∀ n m a r fs (t : FlowSt), t.callbackLog = t.produced →
      (logStep env n m a r fs t).callbackLog = (logStep env n m a r fs t).produced :=
    fun n m a r fs t ht => logStep_callback_sync env n m a r fs t f hf ht
  simp only [enrich, withProject, persistProject]
  repeat' split
  all_goals
    repeat first
      | exact h
      | apply hL
      | dsimp only
      | split

theorem gather_cb (env : FlowEnv) (f : FlowTraceStep → Except String Unit)
    (hf : env.onStep = some f) (s : FlowSt) (h : s.callbackLog = s.produced) :
    (gatherMarketIntel env s).callbackLog = (gatherMarketIntel env s).produced := by
  have hL : ∀ n m a r fs (t : FlowSt), t.callbackLog = t.produced →
      (logStep env n m a r fs t).callbackLog = (logStep env n m a r fs t).produced :=
    fun n m a r fs t ht => logStep_callback_sync env n m a r fs t f hf ht
  simp only [gatherMarketIntel]
  repeat' split
  all_goals
    repeat first
      | exact h
      | apply hL
      | dsimp only
      | split

theorem parallelReview_cb (env : FlowEnv) (f : FlowTraceStep → Except String Unit)
    (hf : env.onStep = some f) (s : FlowSt) (h : s.callbackLog = s.produced) :
    (parallelReview env s).callbackLog = (parallelReview env s).produced := by
  have hL : ∀ n m a r fs (t : FlowSt), t.callbackLog = t.produced →
      (logStep env n m a r fs t).callbackLog = (logStep env n m a r fs t).produced :=
    fun n m a r fs t ht => logStep_callback_sync env n m a r fs t f hf ht
  simp only [parallelReview, withProject, persistProject]
  repeat' split
  all_goals
    repeat first
      | exact h
      | apply hL
      | dsimp only
      | split

theorem finalDecision_cb (env : FlowEnv) (f : FlowTraceStep → Except String Unit)
    (hf : env.onStep = some f) (s : FlowSt) (h : s.callbackLog = s.produced) :
    (finalDecision env s).callbackLog = (finalDecision env s).produced := by
  have hL : ∀ n m a r fs (t : FlowSt), t.callbackLog = t.produced →
      (logStep env n m a r fs t).callbackLog = (logStep env n m a r fs t).produced :=
    fun n m a r fs t ht => logStep_callback_sync env n m a r fs t f hf ht
  have hD : ∀ report rest pre (t : FlowSt), t.callbackLog = t.produced →
      (decideLoop env report pre rest t).callbackLog = (decideLoop env report pre rest t).produced :=
    fun report rest pre t ht => decideLoop_cb env report f hf rest pre t ht
  simp only [finalDecision, persistProject]
  repeat' split
  all_goals
    repeat first
      | exact h
      | apply hL
      | apply hD
      | dsimp only
      | split

theorem complete_cb (env : FlowEnv) (f : FlowTraceStep → Except String Unit)
    (hf : env.onStep = some f) (s : FlowSt) (h : s.callbackLog = s.produced) :
    (complete env s).callbackLog = (complete env s).produced := by
  have hL : ∀ n m a r fs (t : FlowSt), t.callbackLog = t.produced →
      (logStep env n m a r fs t).callbackLog = (logStep env n m a r fs t).produced :=
    fun n m a r fs t ht => logStep_callback_sync env n m a r fs t f hf ht
  simp only [complete]
  repeat' split
  all_goals
    repeat first
      | exact h
      | apply hL
      | dsimp only
      | split

/-- C9 amended: when a trace consumer callback is configured, it is
invoked synchronously exactly once with each trace step as it is
produced, in production order (the invocation log always equals the
production log); but an exception raised inside the callback is not
caught: it propagates and aborts the pipeline run. -/
theorem C9_callback_once_per_step (env : FlowEnv) (f : FlowTraceStep → Except String Unit)
    (hf : env.onStep = some f) :
    (runFlow env).callbackLog = (runFlow env).produced := by
  have h1 := intake_cb env f hf initSt rfl
  have h2 := enrich_cb env f hf _ h1
  have h3 := gather_cb env f hf _ h2
  have h4 := parallelReview_cb env f hf _ h3
  have h5 := finalDecision_cb env f hf _ h4
  exact complete_cb env f hf _ h5

/-- Concrete environment with a quiet callback for the C9 witness. -/
def C9env : FlowEnv :=
  { bomFile := .ok [[("MPN", "X1")]], onStep := some (fun _ => .ok ()) }

/-- Witness for the amended C9 at a concrete run with a configured
callback. -/
theorem C9_callback_once_per_step_witness :
    (runFlow C9env).callbackLog = (runFlow C9env).produced :=
  C9_callback_once_per_step C9env (fun _ => .ok ()) rfl

/-- Concrete environment whose callback always raises, for the C9
counterexample. -/
def C9badEnv : FlowEnv :=
  { bomFile := .ok [[("MPN", "X1")]], onStep := some (fun _ => .error "callback boom") }

/-- C9 counterexample: a callback that raises on the very first trace step
aborts the whole pipeline run (the exception escapes log_step, which has
no try around self.on_step): the run ends poisoned, the project is never
created and the run never completes, contradicting the claim that a
callback exception never aborts the pipeline. -/
theorem C9_counterexample :
    (runFlow C9badEnv).uncaught = some "callback boom" ∧
    (runFlow C9badEnv).store = none ∧
    storeStatus (runFlow C9badEnv) = none :=
  ⟨rfl, rfl, rfl⟩

theorem statusLe_refl (a : LineItemStatus) : statusLe a a = true := by
  cases a <;> rfl

theorem forwardStep_refl (x : Option (List LineItemStatus)) : forwardStep x x := by
  cases x with
  | none => trivial
  | some l =>
    show List.Forall₂ _ l l
    exact List.forall₂_same.mpr (fun a _ => statusLe_refl a)

theorem forwardStep_of_eq (x y : Option (List LineItemStatus)) (h : x = y) :
    forwardStep x y := h ▸ forwardStep_refl x

theorem statusesOf_eq_of_lineItems (s t : FlowSt)
    (h : s.store.map Project.line_items = t.store.map Project.line_items) :
    statusesOf s = statusesOf t := by
  unfold statusesOf
  cases hs : s.store <;> cases ht : t.store <;> rw [hs, ht] at h <;> simp_all

theorem logStep_project_none (env : FlowEnv) (n m : String) (a r : Option String)
    (f : List String) (s : FlowSt) (h : s.project = none) :
    (logStep env n m a r f s).project = none := by
  have := logStep_project_lineItems env n m a r f s
  rw [h] at this
  simp only [Option.map_none'] at this
  cases hp : (logStep env n m a r f s).project with
  | none => rfl
  | some q =>
    rw [hp] at this
    simp at this

theorem parseRow_pending (row : List (String × String)) (item : BOMLineItem)
    (h : parseRow row = .ok item) : item.status = LineItemStatus.pending := by
  unfold parseRow at h
  cases hq : rowGet row "Quantity" with
  | some qs =>
    rw [hq] at h
    try simp only [] at h
    cases hp : pyInt qs with
    | error e =>
      rw [hp] at h
      exact absurd h (by simp)
    | ok n =>
      rw [hp] at h
      try simp only [] at h
      injection h with h2
      subst h2
      rfl
  | none =>
    rw [hq] at h
    try simp only [] at h
    cases hq2 : rowGet row "Qty" with
    | some qs =>
      rw [hq2] at h
      try simp only [] at h
      cases hp : pyInt qs with
      | error e =>
        rw [hp] at h
        exact absurd h (by simp)
      | ok n =>
        rw [hp] at h
        try simp only [] at h
        injection h with h2
        subst h2
        rfl
    | none =>
      rw [hq2] at h
      try simp only [] at h
      injection h with h2
      subst h2
      rfl

theorem parseBom_pending (rows : List (List (String × String))) (items : List BOMLineItem)
    (h : parseBom rows = .ok items) :
    ∀ it ∈ items, it.status = LineItemStatus.pending := by
  induction rows generalizing items with
  | nil =>
    unfold parseBom at h
    simp only [List.mapM_nil] at h
    injection h with h2
    subst h2
    intro it hit
    simp at hit
  | cons row rest ih =>
    unfold parseBom at h
    rw [List.mapM_cons] at h
    cases hr : parseRow row with
    | error e =>
      rw [hr] at h
      exact absurd h (by simp [Bind.bind, Except.bind])
    | ok item =>
      rw [hr] at h
      cases hm : rest.mapM parseRow with
      | error e =>
        rw [hm] at h
        exact absurd h (by simp [Bind.bind, Except.bind, Pure.pure])
      | ok tailItems =>
        rw [hm] at h
        simp only [Bind.bind, Except.bind, Pure.pure, Except.pure, Except.ok.injEq] at h
        subst h
        intro it hit
        rcases List.mem_cons.mp hit with rfl | hmem
        · exact parseRow_pending row it hr
        · exact ih tailItems hm it hmem

/-- Coherence and all-pending statuses after intake from the initial
state, for any environment. -/
theorem intake_start (env : FlowEnv) :
    ((intake env initSt).uncaught = none →
      (intake env initSt).project = (intake env initSt).store) ∧
    (statusesOf (intake env initSt) = none ∨
      ∃ l, statusesOf (intake env initSt) = some l ∧
        ∀ x ∈ l, x = LineItemStatus.pending) := by
  have hinitp : (initSt : FlowSt).project = none := rfl
  have h1p : (logStep env "intake" ("Starting intake from " ++ env.bomPath) none none []
      initSt).project = none := logStep_project_none env _ _ _ _ _ _ hinitp
  have h1s : (logStep env "intake" ("Starting intake from " ++ env.bomPath) none none []
      initSt).store = none :=
    (logStep_store_of_project_none env _ _ _ _ _ _ hinitp).trans rfl
  have herrcase : ∀ e : String,
      ((intakeErrorHandler env e (logStep env "intake"
          ("Starting intake from " ++ env.bomPath) none none [] initSt)).project
        = (intakeErrorHandler env e (logStep env "intake"
          ("Starting intake from " ++ env.bomPath) none none [] initSt)).store) ∧
      statusesOf (intakeErrorHandler env e (logStep env "intake"
          ("Starting intake from " ++ env.bomPath) none none [] initSt)) = none := by
    intro e
    unfold intakeErrorHandler
    have h2p := logStep_project_none env "intake" ("ERROR: " ++ e) none none []
      ({ logStep env "intake" ("Starting intake from " ++ env.bomPath) none none [] initSt with
         flowError := some e } : FlowSt) (by simpa using h1p)
    have h2s := logStep_store_of_project_none env "intake" ("ERROR: " ++ e) none none []
      ({ logStep env "intake" ("Starting intake from " ++ env.bomPath) none none [] initSt with
         flowError := some e } : FlowSt) (by simpa using h1p)
    constructor
    · rw [h2p, h2s]
      simpa using h1s.symm
    · rw [statusesOf, h2s]
      simpa using h1s
  unfold intake
  split
  · rename_i hu0
    exact absurd hu0 (by simp [initSt])
  by_cases hu1 : (logStep env "intake"
      ("Starting intake from " ++ env.bomPath) none none [] initSt).uncaught.isSome
  · simp only [hu1, if_true]
    refine ⟨fun _ => by rw [h1p, h1s], Or.inl ?_⟩
    rw [statusesOf, h1s]
    rfl
  · simp only [hu1, if_false, Bool.false_eq_true]
    cases hc : env.intakeCtxResult with
    | error e =>
      exact ⟨fun _ => (herrcase e).1, Or.inl (herrcase e).2⟩
    | ok c =>
      cases hb : env.bomFile.bind parseBom with
      | error e =>
        exact ⟨fun _ => (herrcase e).1, Or.inl (herrcase e).2⟩
      | ok items =>
        have hpending : ∀ it ∈ items, it.status = LineItemStatus.pending := by
          cases hbf : env.bomFile with
          | error e2 =>
            rw [hbf] at hb
            exact absurd hb (by simp [Bind.bind, Except.bind])
          | ok rows =>
            rw [hbf] at hb
            exact parseBom_pending rows items (by simpa [Bind.bind, Except.bind] using hb)
        set p0 : Project :=
          { project_id := env.projectId, status := "intake", context := c
            line_items := items, trace := [] } with hp0
        have hu1' : (logStep env "intake" ("Starting intake from " ++ env.bomPath) none none []
            initSt).uncaught = none := Option.not_isSome_iff_eq_none.mp hu1
        dsimp only
        generalize hg1 : logStep env "intake"
          ("Starting intake from " ++ env.bomPath) none none [] initSt = s1x at *
        have hlog2 := logStep_of_project_some env "intake"
          ("Created project " ++ env.projectId ++ " with "
            ++ toString items.length ++ " line items") none none []
          ({ s1x with
              project := some p0, store := some p0, projectId := env.projectId,
              offers := fun _ => none } : FlowSt) p0 (by simpa using hu1') rfl
        generalize hg2 : logStep env "intake"
          ("Created project " ++ env.projectId ++ " with "
            ++ toString items.length ++ " line items") none none []
          ({ s1x with
              project := some p0, store := some p0, projectId := env.projectId,
              offers := fun _ => none } : FlowSt) = s3x at *
        cases hu3 : s3x.uncaught with
        | none =>
          constructor
          · intro _
            exact hlog2.1.trans hlog2.2.symm
          · right
            refine ⟨items.map (fun it => it.status), ?_, ?_⟩
            · rw [statusesOf, hlog2.2]
              rfl
            · intro x hx
              obtain ⟨it, hit, rfl⟩ := List.mem_map.mp hx
              exact hpending it hit
        | some e =>
          unfold intakeErrorHandler
          have hlog3 := logStep_of_project_some env "intake" ("ERROR: " ++ e) none none []
            ({ { s3x with uncaught := none } with flowError := some e } : FlowSt)
            ({ p0 with trace := p0.trace ++ [⟨"intake", none,
                "Created project " ++ env.projectId ++ " with "
                  ++ toString items.length ++ " line items", none, []⟩] })
            (by simp) (by simpa using hlog2.1)
          constructor
          · intro _
            exact hlog3.1.trans hlog3.2.symm
          · right
            refine ⟨items.map (fun it => it.status), ?_, ?_⟩
            · rw [statusesOf, hlog3.2]
              rfl
            · intro x hx
              obtain ⟨it, hit, rfl⟩ := List.mem_map.mp hx
              exact hpending it hit

theorem statusLe_promote (it : BOMLineItem) :
    statusLe it.status (promoteEnriched it).status = true := by
  unfold promoteEnriched
  by_cases h : it.status = LineItemStatus.enriched
  · simp [h, statusLe]
  · simp only [h, if_false]
    exact statusLe_refl it.status

theorem applyVerdict_status (report : FinalDecisionReport) (v : PartVerdict)
    (it : BOMLineItem) :
    (applyVerdict report v it).status =
      match v.verdict with
      | VerdictKind.approvedK => LineItemStatus.pendingPurchase
      | VerdictKind.rejectedK => LineItemStatus.failed := by
  unfold applyVerdict
  cases v.verdict <;> rfl

theorem statusLe_decideRel (report : FinalDecisionReport) (a b : BOMLineItem)
    (h : decideRel report a b) : statusLe a.status b.status = true := by
  rcases h with heq | ⟨hst, v, _, heq⟩
  · rw [heq]
    exact statusLe_refl a.status
  · rw [heq, hst, applyVerdict_status]
    cases v.verdict <;> rfl

theorem forall₂_statusLe_map {α : Type} (f g : α → LineItemStatus) (l : List α)
    (h : ∀ x ∈ l, statusLe (f x) (g x) = true) :
    List.Forall₂ (fun a b => statusLe a b = true) (l.map f) (l.map g) := by
  induction l with
  | nil => exact List.Forall₂.nil
  | cons a t ih =>
    exact List.Forall₂.cons (h a (List.mem_cons_self a t))
      (ih (fun x hx => h x (List.mem_cons_of_mem a hx)))

theorem forall₂_statusLe_of_decideRel (report : FinalDecisionReport)
    (l l2 : List BOMLineItem) (h : List.Forall₂ (decideRel report) l l2) :
    List.Forall₂ (fun a b => statusLe a b = true)
      (l.map (fun it => it.status)) (l2.map (fun it => it.status)) := by
  induction h with
  | nil => exact List.Forall₂.nil
  | cons hab _ ih => exact List.Forall₂.cons (statusLe_decideRel report _ _ hab) ih

theorem withProject_engineeringResult (s : FlowSt) (f : Project → Project) :
    (withProject s f).engineeringResult = s.engineeringResult := by
  unfold withProject
  split <;> rfl

theorem withProject_sourcingResult (s : FlowSt) (f : Project → Project) :
    (withProject s f).sourcingResult = s.sourcingResult := by
  unfold withProject
  split <;> rfl

theorem withProject_financeResult (s : FlowSt) (f : Project → Project) :
    (withProject s f).financeResult = s.financeResult := by
  unfold withProject
  split <;> rfl

theorem persistProject_engineeringResult (s : FlowSt) :
    (persistProject s).engineeringResult = s.engineeringResult := by
  unfold persistProject
  split <;> rfl

theorem persistProject_sourcingResult (s : FlowSt) :
    (persistProject s).sourcingResult = s.sourcingResult := by
  unfold persistProject
  split <;> rfl

theorem persistProject_financeResult (s : FlowSt) :
    (persistProject s).financeResult = s.financeResult := by
  unfold persistProject
  split <;> rfl

theorem statusesOf_store (s : FlowSt) (p : Project) (h : s.store = some p) :
    statusesOf s = some (p.line_items.map (fun it => it.status)) := by
  unfold statusesOf
  rw [h]
  rfl

theorem enrich_forward (env : FlowEnv) (s : FlowSt)
    (hcoh : s.uncaught = none → s.project = s.store)
    (hpend : ∀ l, statusesOf s = some l → ∀ x ∈ l, statusLe x LineItemStatus.enriched = true) :
    forwardStep (statusesOf s) (statusesOf (enrich env s)) ∧
    ((enrich env s).uncaught = none → (enrich env s).project = (enrich env s).store) := by
  by_cases hu : s.uncaught.isSome
  · rw [enrich_poison env s hu]
    exact ⟨forwardStep_refl _, fun hn => absurd hu (by simp [hn])⟩
  · have hun : s.uncaught = none := Option.not_isSome_iff_eq_none.mp hu
    have hps := hcoh hun
    have h1 := logStep_coh_frame env "enrich" "Starting enrichment" none none [] s hps
    simp only [enrich, hun, Option.isSome_none, Bool.false_eq_true, if_false]
    split
    · exact ⟨forwardStep_refl _, fun _ => hps⟩
    · generalize hg1 : logStep env "enrich" "Starting enrichment" none none [] s = s1x at h1 ⊢
      split
      · rename_i hu1
        refine ⟨forwardStep_of_eq _ _ (statusesOf_eq_of_lineItems s s1x h1.2.1.symm), ?_⟩
        intro hn
        exact absurd hu1 (by simp [hn])
      · rename_i hu1
        have hun1 : s1x.uncaught = none := Option.not_isSome_iff_eq_none.mp hu1
        split
        · rename_i hnone
          constructor
          · apply forwardStep_of_eq
            have heq : statusesOf s = statusesOf s1x :=
              statusesOf_eq_of_lineItems s s1x h1.2.1.symm
            rw [heq]
            unfold statusesOf
            rfl
          · intro hn
            exact Option.noConfusion hn
        · rename_i p0 hst
          have hss : statusesOf s = some (p0.line_items.map (fun it => it.status)) := by
            have heq : statusesOf s = statusesOf s1x :=
              statusesOf_eq_of_lineItems s s1x h1.2.1.symm
            rw [heq, statusesOf_store s1x p0 hst]
          have key : ∀ (M : String) (t : FlowSt),
              t.project = some ({ p0 with
                status := "enriching"
                line_items := p0.line_items.map
                  (fun it => { it with status := LineItemStatus.enriched }) } : Project) →
              t.store = t.project →
              t.uncaught = none →
              forwardStep (statusesOf s) (statusesOf (logStep env "enrich" M none none [] t)) ∧
              ((logStep env "enrich" M none none [] t).uncaught = none →
                (logStep env "enrich" M none none [] t).project
                  = (logStep env "enrich" M none none [] t).store) := by
            intro M t ht1 ht2 htu
            have h2 := logStep_coh_frame env "enrich" M none none [] t ht2.symm
            constructor
            · have hs2 : statusesOf (logStep env "enrich" M none none [] t) = statusesOf t :=
                statusesOf_eq_of_lineItems _ _ h2.2.1
              rw [hs2, statusesOf_store t _ (ht2.trans ht1), hss]
              show List.Forall₂ _ _ _
              rw [List.map_map]
              apply forall₂_statusLe_map
              intro x hx
              exact hpend (p0.line_items.map (fun it => it.status)) hss x.status
                (List.mem_map_of_mem _ hx)
            · intro _
              exact h2.1
          exact key _ _ rfl rfl hun1

theorem gather_forward (env : FlowEnv) (s : FlowSt)
    (hcoh : s.uncaught = none → s.project = s.store) :
    forwardStep (statusesOf s) (statusesOf (gatherMarketIntel env s)) ∧
    ((gatherMarketIntel env s).uncaught = none →
      (gatherMarketIntel env s).project = (gatherMarketIntel env s).store) := by
  by_cases hu : s.uncaught.isSome
  · rw [gatherMarketIntel_poison env s hu]
    exact ⟨forwardStep_refl _, fun hn => absurd hu (by simp [hn])⟩
  · have hps := hcoh (Option.not_isSome_iff_eq_none.mp hu)
    have h := gather_coh_frame env s hps
    exact ⟨forwardStep_of_eq _ _ (statusesOf_eq_of_lineItems s _ h.2.1.symm),
      fun _ => h.1⟩

theorem complete_forward (env : FlowEnv) (s : FlowSt)
    (hcoh : s.uncaught = none → s.project = s.store) :
    forwardStep (statusesOf s) (statusesOf (complete env s)) ∧
    ((complete env s).uncaught = none →
      (complete env s).project = (complete env s).store) := by
  by_cases hu : s.uncaught.isSome
  · rw [complete_poison env s hu]
    exact ⟨forwardStep_refl _, fun hn => absurd hu (by simp [hn])⟩
  · have hun : s.uncaught = none := Option.not_isSome_iff_eq_none.mp hu
    have hps := hcoh hun
    simp only [complete, hun, Option.isSome_none, Bool.false_eq_true, if_false]
    split
    · exact ⟨forwardStep_refl _, fun _ => hps⟩
    · split
      · rename_i hnone
        refine ⟨forwardStep_refl _, ?_⟩
        intro hn
        exact Option.noConfusion hn
      · rename_i p0 hst
        have key : ∀ t : FlowSt,
            t.project = some ({ p0 with status := "complete" } : Project) →
            t.store = t.project →
            forwardStep (statusesOf s)
              (statusesOf (logStep env "complete"
                ("Project " ++ ({ p0 with status := "complete" } : Project).project_id
                  ++ " processing complete") none none [] t)) ∧
            ((logStep env "complete"
                ("Project " ++ ({ p0 with status := "complete" } : Project).project_id
                  ++ " processing complete") none none [] t).uncaught = none →
              (logStep env "complete"
                ("Project " ++ ({ p0 with status := "complete" } : Project).project_id
                  ++ " processing complete") none none [] t).project
                = (logStep env "complete"
                ("Project " ++ ({ p0 with status := "complete" } : Project).project_id
                  ++ " processing complete") none none [] t).store) := by
          intro t ht1 ht2
          have h2 := logStep_coh_frame env "complete"
            ("Project " ++ ({ p0 with status := "complete" } : Project).project_id
              ++ " processing complete") none none [] t ht2.symm
          constructor
          · have hs2 := statusesOf_eq_of_lineItems _ t h2.2.1
            rw [hs2, statusesOf_store t _ (ht2.trans ht1), statusesOf_store s p0 hst]
            exact forwardStep_refl _
          · intro _
            exact h2.1
        exact key _ rfl rfl

theorem barrier_of_statuses_eq (s r : FlowSt) (h : statusesOf r = statusesOf s) :
    ∀ l3 l4 i, statusesOf s = some l3 → statusesOf r = some l4 →
      l4.get? i = some LineItemStatus.pendingFinalDecision →
      l3.get? i ≠ some LineItemStatus.pendingFinalDecision →
      r.engineeringResult.isSome ∧ r.sourcingResult.isSome ∧ r.financeResult.isSome := by
  intro l3 l4 i h3 h4 hnew hold
  rw [h, h3] at h4
  cases h4
  exact absurd hnew hold

theorem parallelReview_forward (env : FlowEnv) (s : FlowSt)
    (hcoh : s.uncaught = none → s.project = s.store) :
    forwardStep (statusesOf s) (statusesOf (parallelReview env s)) ∧
    ((parallelReview env s).uncaught = none →
      (parallelReview env s).project = (parallelReview env s).store) ∧
    (∀ l3 l4 i, statusesOf s = some l3 →
      statusesOf (parallelReview env s) = some l4 →
      l4.get? i = some LineItemStatus.pendingFinalDecision →
      l3.get? i ≠ some LineItemStatus.pendingFinalDecision →
      (parallelReview env s).engineeringResult.isSome ∧
      (parallelReview env s).sourcingResult.isSome ∧
      (parallelReview env s).financeResult.isSome) := by
  by_cases hu : s.uncaught.isSome
  · rw [parallelReview_poison env s hu]
    exact ⟨forwardStep_refl _, fun hn => absurd hu (by simp [hn]),
      barrier_of_statuses_eq s s rfl⟩
  · have hun : s.uncaught = none := Option.not_isSome_iff_eq_none.mp hu
    have hps := hcoh hun
    have h1 := logStep_coh_frame env "parallel_review"
      "Starting parallel agent review (Engineering, Sourcing, Finance)" none none [] s hps
    simp only [parallelReview, hun, Option.isSome_none, Bool.false_eq_true, if_false]
    split
    · exact ⟨forwardStep_refl _, fun _ => hps, barrier_of_statuses_eq s s rfl⟩
    · generalize hg1 : logStep env "parallel_review"
        "Starting parallel agent review (Engineering, Sourcing, Finance)" none none [] s = s1x at h1 ⊢
      split
      · rename_i hu1
        have hstat : statusesOf s1x = statusesOf s :=
          statusesOf_eq_of_lineItems s1x s h1.2.1
        exact ⟨forwardStep_of_eq _ _ hstat.symm,
          fun hn => absurd hu1 (by simp [hn]),
          barrier_of_statuses_eq s s1x hstat⟩
      · rename_i hu1
        have hun1 : s1x.uncaught = none := Option.not_isSome_iff_eq_none.mp hu1
        split
        · rename_i hnone
          have hstat : statusesOf ({ s1x with
                uncaught := some "KeyError: project not found" } : FlowSt)
              = statusesOf s := statusesOf_eq_of_lineItems _ s h1.2.1
          exact ⟨forwardStep_of_eq _ _ hstat.symm,
            fun hn => Option.noConfusion hn,
            barrier_of_statuses_eq s _ hstat⟩
        · rename_i p0 hst
          have hss : statusesOf s = some (p0.line_items.map (fun it => it.status)) := by
            have heq : statusesOf s = statusesOf s1x :=
              statusesOf_eq_of_lineItems s s1x h1.2.1.symm
            rw [heq, statusesOf_store s1x p0 hst]
          have hsli : s.store.map Project.line_items = some p0.line_items := by
            rw [← h1.2.1, hst]
            rfl
          split
          · have hlog := logStep_of_project_some env "parallel_review" "No items to evaluate"
              none none []
              ({ s1x with project := some ({ p0 with status := "agent_review" } : Project) } : FlowSt)
              ({ p0 with status := "agent_review" } : Project) (by simpa using hun1) rfl
            have hstat : statusesOf (logStep env "parallel_review" "No items to evaluate"
                none none []
                ({ s1x with project := some ({ p0 with status := "agent_review" } : Project) } : FlowSt))
                = statusesOf s := by
              rw [statusesOf_store _ _ hlog.2, hss]
            exact ⟨forwardStep_of_eq _ _ hstat.symm,
              fun _ => hlog.1.trans hlog.2.symm,
              barrier_of_statuses_eq s _ hstat⟩
          · split
            · rename_i engR srcR finR heng hsrc hfin
              have hlog4 := logStep_of_project_some env "parallel_review"
                "Parallel LLM calls completed" none none []
                ({ ({ s1x with project := some ({ p0 with status := "agent_review" } : Project) } : FlowSt) with
                    engineeringResult := some engR, sourcingResult := some srcR
                    financeResult := some finR } : FlowSt)
                ({ p0 with status := "agent_review" } : Project) (by simpa using hun1) rfl
              generalize hg4 : logStep env "parallel_review"
                "Parallel LLM calls completed" none none []
                ({ ({ s1x with project := some ({ p0 with status := "agent_review" } : Project) } : FlowSt) with
                    engineeringResult := some engR, sourcingResult := some srcR
                    financeResult := some finR } : FlowSt) = s4x at hlog4 ⊢
              have coh4 : s4x.project = s4x.store := hlog4.1.trans hlog4.2.symm
              have hli4 : s4x.store.map Project.line_items = some p0.line_items := by
                rw [hlog4.2]
                rfl
              have hE4 : s4x.engineeringResult = some engR := by
                rw [← hg4, logStep_engineeringResult]
              have hS4 : s4x.sourcingResult = some srcR := by
                rw [← hg4, logStep_sourcingResult]
              have hF4 : s4x.financeResult = some finR := by
                rw [← hg4, logStep_financeResult]
              have h5 := logStep_coh_frame env "engineering"
                ("Engineering analysis complete for " ++ toString engR.parts_evaluated.length ++ " parts")
                (some "EngineeringAgent") (some (truncate500 engR.analysis_notes)) [] s4x coh4
              generalize hg5 : logStep env "engineering"
                ("Engineering analysis complete for " ++ toString engR.parts_evaluated.length ++ " parts")
                (some "EngineeringAgent") (some (truncate500 engR.analysis_notes)) [] s4x = s5x at h5 ⊢
              have h6 := logStep_coh_frame env "sourcing"
                ("Sourcing analysis complete for " ++ toString srcR.parts_evaluated.length ++ " parts")
                (some "SourcingAgent") (some (truncate500 srcR.analysis_notes)) [] s5x h5.1
              generalize hg6 : logStep env "sourcing"
                ("Sourcing analysis complete for " ++ toString srcR.parts_evaluated.length ++ " parts")
                (some "SourcingAgent") (some (truncate500 srcR.analysis_notes)) [] s5x = s6x at h6 ⊢
              have h7 := logStep_coh_frame env "finance"
                ("Finance analysis complete for " ++ toString finR.parts_evaluated.length ++ " parts")
                (some "FinanceAgent") (some (truncate500 finR.analysis_notes)) [] s6x h6.1
              generalize hg7 : logStep env "finance"
                ("Finance analysis complete for " ++ toString finR.parts_evaluated.length ++ " parts")
                (some "FinanceAgent") (some (truncate500 finR.analysis_notes)) [] s6x = s7x at h7 ⊢
              have coh7 : s7x.project = s7x.store := h7.1
              have hli7 : s7x.store.map Project.line_items = some p0.line_items :=
                h7.2.1.trans (h6.2.1.trans (h5.2.1.trans hli4))
              have hE7 : s7x.engineeringResult = some engR := by
                rw [← hg7, logStep_engineeringResult, ← hg6, logStep_engineeringResult,
                  ← hg5, logStep_engineeringResult]
                exact hE4
              have hS7 : s7x.sourcingResult = some srcR := by
                rw [← hg7, logStep_sourcingResult, ← hg6, logStep_sourcingResult,
                  ← hg5, logStep_sourcingResult]
                exact hS4
              have hF7 : s7x.financeResult = some finR := by
                rw [← hg7, logStep_financeResult, ← hg6, logStep_financeResult,
                  ← hg5, logStep_financeResult]
                exact hF4
              split
              · rename_i hu7
                have hstat : statusesOf s7x = statusesOf s :=
                  statusesOf_eq_of_lineItems s7x s (hli7.trans hsli.symm)
                exact ⟨forwardStep_of_eq _ _ hstat.symm,
                  fun hn => absurd hu7 (by simp [hn]),
                  barrier_of_statuses_eq s s7x hstat⟩
              · rename_i hu7
                obtain ⟨q7, hq7, hq7li⟩ := Option.map_eq_some'.mp hli7
                have hproj7 : s7x.project = some q7 := coh7.trans hq7
                have hw : withProject s7x
                    (fun p => { p with line_items := p.line_items.map promoteEnriched })
                    = { s7x with project := some { q7 with
                        line_items := q7.line_items.map promoteEnriched } } := by
                  unfold withProject
                  rw [hproj7]
                rw [hw]
                have key : ∀ (M : String) (t : FlowSt),
                    t.project = t.store →
                    t.store = some ({ q7 with
                      line_items := q7.line_items.map promoteEnriched } : Project) →
                    t.engineeringResult = some engR →
                    t.sourcingResult = some srcR →
                    t.financeResult = some finR →
                    forwardStep (statusesOf s)
                      (statusesOf (logStep env "parallel_review" M none none [] t)) ∧
                    ((logStep env "parallel_review" M none none [] t).uncaught = none →
                      (logStep env "parallel_review" M none none [] t).project
                        = (logStep env "parallel_review" M none none [] t).store) ∧
                    (∀ l3 l4 i, statusesOf s = some l3 →
                      statusesOf (logStep env "parallel_review" M none none [] t) = some l4 →
                      l4.get? i = some LineItemStatus.pendingFinalDecision →
                      l3.get? i ≠ some LineItemStatus.pendingFinalDecision →
                      (logStep env "parallel_review" M none none [] t).engineeringResult.isSome ∧
                      (logStep env "parallel_review" M none none [] t).sourcingResult.isSome ∧
                      (logStep env "parallel_review" M none none [] t).financeResult.isSome) := by
                  intro M t ht1 ht2 htE htS htF
                  have hfin := logStep_coh_frame env "parallel_review" M none none [] t ht1
                  have hstat2 : statusesOf (logStep env "parallel_review" M none none [] t)
                      = some ((q7.line_items.map promoteEnriched).map (fun it => it.status)) := by
                    rw [statusesOf_eq_of_lineItems _ t hfin.2.1, statusesOf_store t _ ht2]
                  refine ⟨?_, fun _ => hfin.1, ?_⟩
                  · rw [hstat2, hq7li, hss]
                    show List.Forall₂ _ _ _
                    rw [List.map_map]
                    exact forall₂_statusLe_map _ _ _ (fun x _ => statusLe_promote x)
                  · intro l3 l4 i h3 h4 hnew hold
                    refine ⟨?_, ?_, ?_⟩
                    · rw [logStep_engineeringResult, htE]
                      rfl
                    · rw [logStep_sourcingResult, htS]
                      rfl
                    · rw [logStep_financeResult, htF]
                      rfl
                exact key _ _ rfl rfl hE7 hS7 hF7
            · exact ⟨forwardStep_of_eq _ _ (statusesOf_eq_of_lineItems _ s h1.2.1).symm,
                fun hn => Option.noConfusion hn,
                barrier_of_statuses_eq s _ (statusesOf_eq_of_lineItems _ s h1.2.1)⟩
            · exact ⟨forwardStep_of_eq _ _ (statusesOf_eq_of_lineItems _ s h1.2.1).symm,
                fun hn => Option.noConfusion hn,
                barrier_of_statuses_eq s _ (statusesOf_eq_of_lineItems _ s h1.2.1)⟩
            · exact ⟨forwardStep_of_eq _ _ (statusesOf_eq_of_lineItems _ s h1.2.1).symm,
                fun hn => Option.noConfusion hn,
                barrier_of_statuses_eq s _ (statusesOf_eq_of_lineItems _ s h1.2.1)⟩

theorem finalDecision_forward (env : FlowEnv) (s : FlowSt)
    (hcoh : s.uncaught = none → s.project = s.store) :
    forwardStep (statusesOf s) (statusesOf (finalDecision env s)) ∧
    ((finalDecision env s).uncaught = none →
      (finalDecision env s).project = (finalDecision env s).store) := by
  by_cases hu : s.uncaught.isSome
  · rw [finalDecision_poison env s hu]
    exact ⟨forwardStep_refl _, fun hn => absurd hu (by simp [hn])⟩
  · have hun : s.uncaught = none := Option.not_isSome_iff_eq_none.mp hu
    have hps := hcoh hun
    have h1 := logStep_coh_frame env "final_decision"
      "Starting final decision synthesis" none none [] s hps
    simp only [finalDecision, hun, Option.isSome_none, Bool.false_eq_true, if_false]
    split
    · exact ⟨forwardStep_refl _, fun _ => hps⟩
    · generalize hg1 : logStep env "final_decision"
        "Starting final decision synthesis" none none [] s = s1x at h1 ⊢
      split
      · rename_i hu1
        exact ⟨forwardStep_of_eq _ _ (statusesOf_eq_of_lineItems s s1x h1.2.1.symm),
          fun hn => absurd hu1 (by simp [hn])⟩
      · rename_i hu1
        have hun1 : s1x.uncaught = none := Option.not_isSome_iff_eq_none.mp hu1
        split
        · rename_i hnone
          exact ⟨forwardStep_of_eq _ _ (statusesOf_eq_of_lineItems _ s h1.2.1).symm,
            fun hn => Option.noConfusion hn⟩
        · rename_i p0 hst
          have hss : statusesOf s = some (p0.line_items.map (fun it => it.status)) := by
            have heq : statusesOf s = statusesOf s1x :=
              statusesOf_eq_of_lineItems s s1x h1.2.1.symm
            rw [heq, statusesOf_store s1x p0 hst]
          have hsli : s.store.map Project.line_items = some p0.line_items := by
            rw [← h1.2.1, hst]
            rfl
          split
          · have hlog := logStep_of_project_some env "final_decision"
              "No items pending final decision" none none []
              ({ s1x with project := some ({ p0 with status := "final_decision" } : Project) } : FlowSt)
              ({ p0 with status := "final_decision" } : Project) (by simpa using hun1) rfl
            have hstat : statusesOf (logStep env "final_decision"
                "No items pending final decision" none none []
                ({ s1x with project := some ({ p0 with status := "final_decision" } : Project) } : FlowSt))
                = statusesOf s := by
              rw [statusesOf_store _ _ hlog.2, hss]
            exact ⟨forwardStep_of_eq _ _ hstat.symm,
              fun _ => hlog.1.trans hlog.2.symm⟩
          · split
            · rename_i engR srcR finR heng hsrc hfin
              split
              · exact ⟨forwardStep_of_eq _ _ (statusesOf_eq_of_lineItems _ s h1.2.1).symm,
                  fun hn => Option.noConfusion hn⟩
              · rename_i report hrep
                have hlog4 := logStep_of_project_some env "final_decision"
                  "Final decision LLM call completed" none none []
                  ({ ({ s1x with project := some ({ p0 with status := "final_decision" } : Project) } : FlowSt) with
                      finalReport := some report } : FlowSt)
                  ({ p0 with status := "final_decision" } : Project) (by simpa using hun1) rfl
                generalize hg4 : logStep env "final_decision"
                  "Final decision LLM call completed" none none []
                  ({ ({ s1x with project := some ({ p0 with status := "final_decision" } : Project) } : FlowSt) with
                      finalReport := some report } : FlowSt) = s4x at hlog4 ⊢
                have hli4 : s4x.store.map Project.line_items = some p0.line_items := by
                  rw [hlog4.2]
                  rfl
                obtain ⟨q2, rest2, hproj5, hitems2, hrel, hstore5⟩ :=
                  decideLoop_evolve env report p0.line_items [] s4x _ hlog4.1 (by simp)
                generalize hg5 : decideLoop env report [] p0.line_items s4x = s5x at hproj5 hstore5 ⊢
                split
                · rename_i hu5
                  rcases hstore5 with hsame | ⟨q3, rest3, hs3, hi3, hr3⟩
                  · have hli5 : s5x.store.map Project.line_items = some p0.line_items := by
                      rw [hsame]
                      exact hli4
                    exact ⟨forwardStep_of_eq _ _
                        (statusesOf_eq_of_lineItems s s5x (hsli.trans hli5.symm)),
                      fun hn => absurd hu5 (by simp [hn])⟩
                  · refine ⟨?_, fun hn => absurd hu5 (by simp [hn])⟩
                    rw [statusesOf_store s5x q3 hs3, hi3, hss]
                    simp only [List.nil_append]
                    show List.Forall₂ _ _ _
                    exact forall₂_statusLe_of_decideRel report _ _ hr3
                · rename_i hu5
                  have hp6 : persistProject s5x = { s5x with store := some q2 } := by
                    unfold persistProject
                    rw [hproj5]
                  rw [hp6]
                  have key : ∀ (M : String) (t : FlowSt),
                      t.project = some q2 → t.store = some q2 →
                      forwardStep (statusesOf s)
                        (statusesOf (logStep env "final_decision" M none none [] t)) ∧
                      ((logStep env "final_decision" M none none [] t).uncaught = none →
                        (logStep env "final_decision" M none none [] t).project
                          = (logStep env "final_decision" M none none [] t).store) := by
                    intro M t ht1 ht2
                    have hfin2 := logStep_coh_frame env "final_decision" M none none [] t
                      (ht1.trans ht2.symm)
                    refine ⟨?_, fun _ => hfin2.1⟩
                    rw [statusesOf_eq_of_lineItems _ t hfin2.2.1,
                      statusesOf_store t q2 ht2, hitems2, hss]
                    simp only [List.nil_append]
                    show List.Forall₂ _ _ _
                    exact forall₂_statusLe_of_decideRel report _ _ hrel
                  exact key _ _ hproj5 rfl
            all_goals
              exact ⟨forwardStep_of_eq _ _ (statusesOf_eq_of_lineItems _ s h1.2.1).symm,
                fun hn => Option.noConfusion hn⟩

/-- C3: across one whole pipeline run, the stored line item statuses only
move forward along PENDING to ENRICHED to PENDING_FINAL_DECISION to
(PENDING_PURCHASE or FAILED) at every stage boundary (never backward,
never in a cycle, and each stage keeps the item list length); and an item
newly set to PENDING_FINAL_DECISION by the parallel review stage implies
the results of all three specialist evaluators are present in the state
for that run. -/
theorem C3_line_item_status_forward_machine (env : FlowEnv) :
    forwardStep (statusesOf initSt) (statusesOf (intake env initSt)) ∧
    forwardStep (statusesOf (intake env initSt))
      (statusesOf (enrich env (intake env initSt))) ∧
    forwardStep (statusesOf (enrich env (intake env initSt)))
      (statusesOf (gatherMarketIntel env (enrich env (intake env initSt)))) ∧
    forwardStep (statusesOf (gatherMarketIntel env (enrich env (intake env initSt))))
      (statusesOf (parallelReview env (gatherMarketIntel env (enrich env (intake env initSt))))) ∧
    forwardStep (statusesOf (parallelReview env (gatherMarketIntel env (enrich env (intake env initSt)))))
      (statusesOf (finalDecision env (parallelReview env (gatherMarketIntel env (enrich env (intake env initSt)))))) ∧
    forwardStep (statusesOf (finalDecision env (parallelReview env (gatherMarketIntel env (enrich env (intake env initSt))))))
      (statusesOf (runFlow env)) ∧
    (∀ l3 l4 i,
      statusesOf (gatherMarketIntel env (enrich env (intake env initSt))) = some l3 →
      statusesOf (parallelReview env (gatherMarketIntel env (enrich env (intake env initSt)))) = some l4 →
      l4.get? i = some LineItemStatus.pendingFinalDecision →
      l3.get? i ≠ some LineItemStatus.pendingFinalDecision →
      (parallelReview env (gatherMarketIntel env (enrich env (intake env initSt)))).engineeringResult.isSome ∧
      (parallelReview env (gatherMarketIntel env (enrich env (intake env initSt)))).sourcingResult.isSome ∧
      (parallelReview env (gatherMarketIntel env (enrich env (intake env initSt)))).financeResult.isSome) := by
  have H1 := intake_start env
  have hpend : ∀ l, statusesOf (intake env initSt) = some l →
      ∀ x ∈ l, statusLe x LineItemStatus.enriched = true := by
    intro l hl x hx
    rcases H1.2 with hnone | ⟨l2, hl2, hall⟩
    · rw [hnone] at hl
      exact Option.noConfusion hl
    · rw [hl2] at hl
      cases hl
      rw [hall x hx]
      rfl
  have H2 := enrich_forward env (intake env initSt) H1.1 hpend
  have H3 := gather_forward env (enrich env (intake env initSt)) H2.2
  have H4 := parallelReview_forward env
    (gatherMarketIntel env (enrich env (intake env initSt))) H3.2
  have H5 := finalDecision_forward env
    (parallelReview env (gatherMarketIntel env (enrich env (intake env initSt)))) H4.2.1
  have H6 := complete_forward env
    (finalDecision env (parallelReview env (gatherMarketIntel env (enrich env (intake env initSt)))))
    H5.2
  exact ⟨trivial, H2.1, H3.1, H4.1, H5.1, H6.1, H4.2.2⟩

/-- Concrete environment for the C3 witness: a one-row BOM and default
specialist evaluators, promoting the single item to
PENDING_FINAL_DECISION during parallel review. -/
def C3env : FlowEnv := { bomFile := .ok [[("MPN", "X1")]] }

/-- Witness for C3 at a concrete run whose single item is newly promoted
to PENDING_FINAL_DECISION by the parallel review stage: the barrier
hypotheses hold concretely and all three specialist results are present. -/
theorem C3_line_item_status_forward_machine_witness :
    statusesOf (gatherMarketIntel C3env (enrich C3env (intake C3env initSt)))
      = some [LineItemStatus.enriched] ∧
    statusesOf (parallelReview C3env (gatherMarketIntel C3env (enrich C3env (intake C3env initSt))))
      = some [LineItemStatus.pendingFinalDecision] ∧
    [LineItemStatus.pendingFinalDecision].get? 0 = some LineItemStatus.pendingFinalDecision ∧
    [LineItemStatus.enriched].get? 0 ≠ some LineItemStatus.pendingFinalDecision ∧
    ((parallelReview C3env (gatherMarketIntel C3env (enrich C3env (intake C3env initSt)))).engineeringResult.isSome ∧
     (parallelReview C3env (gatherMarketIntel C3env (enrich C3env (intake C3env initSt)))).sourcingResult.isSome ∧
     (parallelReview C3env (gatherMarketIntel C3env (enrich C3env (intake C3env initSt)))).financeResult.isSome) :=
  ⟨rfl, rfl, rfl, by decide,
    (C3_line_item_status_forward_machine C3env).2.2.2.2.2.2
      [LineItemStatus.enriched] [LineItemStatus.pendingFinalDecision] 0 rfl rfl rfl (by decide)⟩
